import Mathlib

/-!
Verification development for the MASSpy core: a shallow embedding of the
network/matrix/kinetics engine of `mass/core/massmodel.py` and
`mass/core/expressions.py`, together with theorems settling the spec's
claims about it.

Modelling conventions:
* sympy expressions become the inductive type `SExpr`; semantic equality of
  expressions is evaluation equality at every valuation;
* python dicts become association lists with python `dict` update/delete
  semantics (`aset`, `aupdate`, `adelete`); a raised exception (`KeyError`,
  `ValueError`, unhandled attribute errors) is `Option.none`;
* object references between registries are represented by identifiers, as
  the spec's data model itself prescribes for back-references;
* stoichiometric coefficients are integers, concentrations and parameter
  values are rationals.
-/

namespace MassPy

/-- Symbolic expressions mirroring the sympy expressions built in
`mass/core/expressions.py`: rational numerals, plain symbols (`sp.Symbol`),
time-dependent metabolite functions (`sp.Symbol(id)(t)`), addition,
multiplication, and integer powers. -/
inductive SExpr where
  | num : ℚ → SExpr
  | sym : String → SExpr
  | func : String → SExpr
  | add : SExpr → SExpr → SExpr
  | mul : SExpr → SExpr → SExpr
  | pow : SExpr → ℤ → SExpr
deriving DecidableEq, Repr

/-- Evaluation of a symbolic expression: `v` valuates the plain symbols and
`c` valuates the time-dependent concentration functions. -/
def evalS (v c : String → ℚ) : SExpr → ℚ
  | .num q => q
  | .sym s => v s
  | .func s => c s
  | .add a b => evalS v c a + evalS v c b
  | .mul a b => evalS v c a * evalS v c b
  | .pow a z => (evalS v c a) ^ z

/-- Substitution of the plain symbol `n` by the expression `r`
(sympy `expr.subs(Symbol(n), r)`). -/
def substSym (n : String) (r : SExpr) : SExpr → SExpr
  | .num q => .num q
  | .sym s => if s = n then r else .sym s
  | .func s => .func s
  | .add a b => .add (substSym n r a) (substSym n r b)
  | .mul a b => .mul (substSym n r a) (substSym n r b)
  | .pow a z => .pow (substSym n r a) z

/-- The plain symbols occurring in an expression (`expr.atoms(sp.Symbol)`),
listed with possible repetitions; callers deduplicate.  An applied
concentration function `B(t)` contributes the time symbol `t`: sympy's
`atoms(sp.Symbol)` descends into the application's arguments, so every
time-dependent function in an expression puts `Symbol("t")` in its atom
set (expressions after `strip_time` carry no functions and hence no `t`). -/
def symsOf : SExpr → List String
  | .num _ => []
  | .sym s => [s]
  | .func _ => ["t"]
  | .add a b => symsOf a ++ symsOf b
  | .mul a b => symsOf a ++ symsOf b
  | .pow a _ => symsOf a

/-- The time-dependent functions occurring in an expression
(`expr.atoms(sp.Function)`). -/
def funcsOf : SExpr → List String
  | .num _ => []
  | .sym _ => []
  | .func s => [s]
  | .add a b => funcsOf a ++ funcsOf b
  | .mul a b => funcsOf a ++ funcsOf b
  | .pow a _ => funcsOf a

/-- Replace every time-dependent function by the plain symbol of the same
name: `strip_time` of `mass/core/expressions.py` (the `str(f)[:-3]` rename
drops the `(t)` suffix). -/
def stripTime : SExpr → SExpr
  | .num q => .num q
  | .sym s => .sym s
  | .func s => .sym s
  | .add a b => .add (stripTime a) (stripTime b)
  | .mul a b => .mul (stripTime a) (stripTime b)
  | .pow a z => .pow (stripTime a) z

/-- Substitute values for a set of plain symbols, folding `substSym`
(the `rate.subs(values)` call of `calc_PERCS`). -/
def substVals (e : SExpr) (values : List (String × ℚ)) : SExpr :=
  values.foldl (fun acc p => substSym p.1 (.num p.2) acc) e

/-- First-match lookup in an association list (python `d[k]` read). -/
def alookup {β : Type} (k : String) : List (String × β) → Option β
  | [] => none
  | p :: rest => if p.1 = k then some p.2 else alookup k rest

/-- Membership of a key (python `k in d`). -/
def akey {β : Type} (k : String) (m : List (String × β)) : Bool :=
  m.any (fun p => p.1 = k)

/-- Single-key write with python `dict` semantics: replace the binding in
place when the key exists, append otherwise. -/
def aset {β : Type} : List (String × β) → String → β → List (String × β)
  | [], k, v => [(k, v)]
  | p :: rest, k, v => if p.1 = k then (k, v) :: rest else p :: aset rest k v

/-- Python `dict.update`: fold the writes of `upd` over `base`. -/
def aupdate {β : Type} (base upd : List (String × β)) : List (String × β) :=
  upd.foldl (fun acc p => aset acc p.1 p.2) base

/-- Python `del d[k]`: `none` models the `KeyError` raised when the key is
absent. -/
def adelete {β : Type} (m : List (String × β)) (k : String) :
    Option (List (String × β)) :=
  if akey k m then some (m.filter (fun p => ¬ p.1 = k)) else none

/-- A metabolite as referenced from a reaction's coefficient map:
identifier, elemental formula, initial condition.  The `MassMetabolite`
class lives in `mass.core.massmetabolite`, which is not under `src/`; the
fields follow the spec's data model (§3). -/
structure MetabRef where
  id : String
  elements : List (String × ℕ) := []
  ic : Option ℚ := none
deriving DecidableEq, Repr

/-- A metabolite as stored in the model registry: the same data plus the
non-owning back-reference set of reaction identifiers (spec §3 stores
back-references as identifier sets, never as owning pointers). -/
structure RegMetab where
  id : String
  elements : List (String × ℕ) := []
  ic : Option ℚ := none
  reactionRefs : List String := []
deriving DecidableEq, Repr

/-- A reaction: ordered coefficient map (metabolite, signed coefficient),
reversibility and exchange flags, the external pseudo-metabolite identifier
used by exchange reactions, rate-constant slots, steady-state flux, genes,
and the rate-law type last written to the reaction.  The `MassReaction`
class lives in `mass.core.massreaction`, not under `src/`; fields follow
the spec's data model (§3). -/
structure MassReaction where
  id : String
  metabolites : List (MetabRef × ℤ) := []
  reversible : Bool := true
  exchange : Bool := false
  external : String := ""
  Keq : Option ℚ := none
  kf : Option ℚ := none
  kr : Option ℚ := none
  ssflux : Option ℚ := none
  genes : List String := []
  rtype : ℕ := 1
deriving DecidableEq, Repr

/-- A stoichiometric matrix: dimensions together with entries.  This is the
value-level content shared by every representation ('dense', 'dok', 'lil',
'dataframe', 'symbolic'); the conversions of `_convert_S` are value-exact,
so one structure stands for all of them. -/
structure SMatrix where
  rows : ℕ
  cols : ℕ
  entry : ℕ → ℕ → ℤ

/-- The model: entity registries, initial conditions, rate-law type
selector, custom-rate and custom-parameter maps, fixed concentrations, and
the cached stoichiometric matrix (`_S`).  Registry maps are keyed by
identifier. -/
structure MassModel where
  metabolites : List RegMetab := []
  reactions : List MassReaction := []
  genes : List String := []
  initial_conditions : List (String × ℚ) := []
  rtype : ℕ := 1
  custom_rates : List (String × SExpr) := []
  custom_parameters : List (String × ℚ) := []
  fixed_concentrations : List (String × ℚ) := []
  Scache : Option SMatrix := none

/-- Identifiers of the metabolite registry, in registry order. -/
def metaboliteIds (m : MassModel) : List String := m.metabolites.map (·.id)

/-- Identifiers of the reaction registry, in registry order. -/
def reactionIds (m : MassModel) : List String := m.reactions.map (·.id)

/-- The signed stoichiometric coefficient of metabolite `mid` in reaction
`r`, `0` when the metabolite does not participate. -/
def coeffOf (r : MassReaction) (mid : String) : ℤ :=
  match r.metabolites.find? (fun p => p.1.id = mid) with
  | some p => p.2
  | none => 0

/-- Position of an identifier in a registry id list (`DictList.index`);
`none` mirrors the `ValueError` raised when the id is absent. -/
def regIndex (ids : List String) (s : String) : Option ℕ :=
  match ids with
  | [] => none
  | a :: rest => if a = s then some 0 else (regIndex rest s).map (· + 1)

/-- Pointwise write into a matrix entry function
(`s_matrix[m_ind(metab), r_ind(rxn)] = stoic`). -/
def writeEntry (f : ℕ → ℕ → ℤ) (i0 j0 : ℕ) (v : ℤ) : ℕ → ℕ → ℤ :=
  fun i j => if i = i0 ∧ j = j0 then v else f i j

/-- Write one reaction's coefficient map into column `j0`: the inner loop
of the full build in `_create_stoichiometric_matrix`. -/
def writeReaction (mids : List String) (j0 : ℕ) (pairs : List (MetabRef × ℤ))
    (f : ℕ → ℕ → ℤ) : Option (ℕ → ℕ → ℤ) :=
  pairs.foldlM
    (fun g p => (regIndex mids p.1.id).map (fun i0 => writeEntry g i0 j0 p.2)) f

/-- The write loop of the full build: iterate every reaction's coefficient
map and place each value at (metabolite index, reaction index). -/
def buildWrites (mids rids : List String) (rxns : List MassReaction)
    (f0 : ℕ → ℕ → ℤ) : Option (ℕ → ℕ → ℤ) :=
  rxns.foldlM (fun f rxn =>
    match regIndex rids rxn.id with
    | none => none
    | some j0 => writeReaction mids j0 rxn.metabolites f) f0

/-- The full build `_create_stoichiometric_matrix`
(`mass/core/massmodel.py` lines 1589-1665): `none` when the model has no
metabolites or no reactions, otherwise the zero matrix of shape
(#metabolites, #reactions) with every reaction's coefficients written in. -/
def createStoichiometricMatrix (m : MassModel) : Option SMatrix :=
  if m.metabolites.length = 0 ∨ m.reactions.length = 0 then none
  else
    (buildWrites (metaboliteIds m) (reactionIds m) m.reactions
        (fun _ _ => 0)).map
      (fun f => ⟨m.metabolites.length, m.reactions.length, f⟩)

/-- `_convert_S` (`mass/core/massmodel.py` lines 1778-1821): every branch
converts the MODEL's stored matrix `self._S` (the local variable
`s_matrix = self._S` is bound at entry), never its caller's working copy,
and every conversion is value-exact, so the result is the cached matrix. -/
def convertS (m : MassModel) : Option SMatrix := m.Scache

/-- Resize of the point-update ('dok') sparse form: entries inside the old
shape are kept, fresh positions read zero. -/
def resizeS (s : SMatrix) (rows cols : ℕ) : SMatrix :=
  ⟨rows, cols,
    fun i j => if i < s.rows ∧ j < s.cols then s.entry i j else 0⟩

/-- `_update_stoichiometry` (`mass/core/massmodel.py` lines 1727-1776):
convert the cached matrix to 'dok' form, resize it to the new shape, write
the new reactions' entries — and then (faithfully to the source) return
`self._convert_S(matrix_type)`, which re-reads the UNMODIFIED cached
`self._S`, discarding the updated working copy. -/
def updateStoichiometry (m : MassModel) (reactionList : List MassReaction) :
    Option SMatrix := do
  let s ← convertS m
  let s := resizeS s m.metabolites.length m.reactions.length
  let _ ← buildWrites (metaboliteIds m) (reactionIds m) reactionList s.entry
  let s ← convertS m
  some s

/-- `update_S` (`mass/core/massmodel.py` lines 246-311): full rebuild when
there is no cached matrix or no reaction list, incremental path otherwise. -/
def updateS (m : MassModel) (reactionList : Option (List MassReaction)) :
    Option SMatrix :=
  match m.Scache, reactionList with
  | none, _ => createStoichiometricMatrix m
  | some _, none => createStoichiometricMatrix m
  | some _, some rl => updateStoichiometry m rl

/-- Modelled from the spec: `MassReaction._sym_kf` (class not under
`src/`) — the reaction's forward rate-constant symbol; §4.6 requires the
name to match the `kf` pattern, so it is `kf_` followed by the id. -/
def symKf (r : MassReaction) : String := "kf_" ++ r.id

/-- Modelled from the spec: `MassReaction._sym_kr`, the reverse
rate-constant symbol (`kr` pattern). -/
def symKr (r : MassReaction) : String := "kr_" ++ r.id

/-- Modelled from the spec: `MassReaction._sym_Keq`, the equilibrium
constant symbol (`Keq` pattern). -/
def symKeq (r : MassReaction) : String := "Keq_" ++ r.id

/-- Metabolites with a negative coefficient (spec §3: reactant iff the
coefficient is negative), in coefficient-map order. -/
def reactants (r : MassReaction) : List (MetabRef × ℤ) :=
  r.metabolites.filter (fun p => p.2 < 0)

/-- Metabolites with a positive coefficient (spec §3: product iff the
coefficient is positive), in coefficient-map order. -/
def products (r : MassReaction) : List (MetabRef × ℤ) :=
  r.metabolites.filter (fun p => 0 < p.2)

/-- One species' mass-action factor: the concentration function raised to
the absolute value of the coefficient, the exponent elided when it is 1. -/
def powTerm (p : MetabRef × ℤ) : SExpr :=
  if p.2.natAbs = 1 then .func p.1.id
  else .pow (.func p.1.id) (p.2.natAbs : ℤ)

/-- The mass-action accumulation loop `rate_law = sp.Mul(rate_law, term)`
over a species list, starting from `e0`. -/
def maFold (l : List (MetabRef × ℤ)) (e0 : SExpr) : SExpr :=
  l.foldl (fun acc p => .mul acc (powTerm p)) e0

/-- `_generate_rate_expr_type_1` (`mass/core/expressions.py` lines
308-355): `kf * (reactantTerm - productTerm / Keq)`, the forward factor
alone for an irreversible reaction; an exchange reaction with an empty
side uses the synthetic external concentration symbol. -/
def rateExprType1 (r : MassReaction) : SExpr :=
  let rf := if r.exchange && (reactants r).isEmpty
    then SExpr.mul (.num 1) (.sym r.external)
    else maFold (reactants r) (.num 1)
  if !r.reversible then .mul (.sym (symKf r)) rf
  else
    let rr := if r.exchange && (products r).isEmpty
      then SExpr.mul (.pow (.sym (symKeq r)) (-1)) (.sym r.external)
      else maFold (products r) (.pow (.sym (symKeq r)) (-1))
    .mul (.sym (symKf r)) (.add rf (.mul (.num (-1)) rr))

/-- `_generate_rate_expr_type_2` (`mass/core/expressions.py` lines
357-404): `kf * reactantTerm - kr * productTerm`, the forward term alone
for an irreversible reaction. -/
def rateExprType2 (r : MassReaction) : SExpr :=
  let rf := if r.exchange && (reactants r).isEmpty
    then SExpr.mul (.sym (symKf r)) (.sym r.external)
    else maFold (reactants r) (.sym (symKf r))
  if !r.reversible then rf
  else
    let rr := if r.exchange && (products r).isEmpty
      then SExpr.mul (.sym (symKr r)) (.sym r.external)
      else maFold (products r) (.sym (symKr r))
    .add rf (.mul (.num (-1)) rr)

/-- `_generate_rate_expr_type_3` (`mass/core/expressions.py` lines
406-454): `kr * (Keq * reactantTerm - productTerm)`. -/
def rateExprType3 (r : MassReaction) : SExpr :=
  let rf := if r.exchange && (reactants r).isEmpty
    then SExpr.mul (.sym (symKeq r)) (.sym r.external)
    else maFold (reactants r) (.sym (symKeq r))
  if !r.reversible then .mul (.sym (symKr r)) rf
  else
    let rr := if r.exchange && (products r).isEmpty
      then SExpr.mul (.num 1) (.sym r.external)
      else maFold (products r) (.num 1)
    .mul (.sym (symKr r)) (.add rf (.mul (.num (-1)) rr))

/-- Python `dict` equality on elemental formulas: same keys with the same
values, independent of order. -/
def dictEqB (a b : List (String × ℕ)) : Bool :=
  a.all (fun p => alookup p.1 b == some p.2) &&
    b.all (fun p => alookup p.1 a == some p.2)

/-- The species-exclusion test of `_ignore_h_and_h2o`: elemental formula
equal to water or to free hydrogen. -/
def isWaterOrHydrogen (els : List (String × ℕ)) : Bool :=
  dictEqB els [("H", 2), ("O", 1)] || dictEqB els [("H", 1)]

/-- `_ignore_h_and_h2o` (`mass/core/expressions.py` lines 544-555): drop
water and free hydrogen from a copy of the reaction unless the reaction is
an exchange. -/
def ignoreHandH2O (r : MassReaction) : MassReaction :=
  { r with metabolites :=
      if r.exchange then r.metabolites
      else r.metabolites.filter (fun p => !(isWaterOrHydrogen p.1.elements)) }

/-- `generate_rate_law` with `sympy_expr=True`
(`mass/core/expressions.py` lines 24-90): `None` for an empty reaction,
else the type-selected generator applied to the exclusion-filtered copy;
an invalid type raises `ValueError` (`none`). -/
def generateRateLawExpr (r : MassReaction) (rate_type : ℕ) : Option SExpr :=
  if r.metabolites.isEmpty then none
  else
    let rxn := ignoreHandH2O r
    match rate_type with
    | 1 => some (rateExprType1 rxn)
    | 2 => some (rateExprType2 rxn)
    | 3 => some (rateExprType3 rxn)
    | _ => none

/-- Modelled from the spec: `MassReaction.rate_expression` (class not under
`src/`) — the reaction's current symbolic rate law, i.e. the stored
`_rate_expr` last produced by `generate_rate_law` at the reaction's
rate-law type (§4.3, §4.4). -/
def rateExpression (r : MassReaction) : Option SExpr :=
  generateRateLawExpr r r.rtype

/-- The `rates` property (`mass/core/massmodel.py` lines 171-182): the
generated rate law of every reaction at the model's rate-law type,
overridden by the custom-rate map when it is nonempty. -/
def ratesProp (m : MassModel) : List (String × Option SExpr) :=
  let rate_dict := m.reactions.map
    (fun r => (r.id, generateRateLawExpr r m.rtype))
  if m.custom_rates.isEmpty then rate_dict
  else aupdate rate_dict (m.custom_rates.map (fun p => (p.1, some p.2)))

/-- `generate_rate_laws` with `sympy_expr=True` and no reaction list
(`mass/core/massmodel.py` lines 767-827): invalid type or an empty model
yields no dictionary; custom rates override the generated entries. -/
def generateRateLaws (m : MassModel) (rate_type : ℕ) :
    Option (List (String × Option SExpr)) :=
  if rate_type = 1 ∨ rate_type = 2 ∨ rate_type = 3 then
    if m.reactions.isEmpty then none
    else
      let rates := m.reactions.map
        (fun r => (r.id, generateRateLawExpr r rate_type))
      some (if m.custom_rates.isEmpty then rates
        else aupdate rates (m.custom_rates.map (fun p => (p.1, some p.2))))
  else none

/-- The reactions whose coefficient map contains the metabolite: the
back-reference set `metabolite._reaction`, kept consistent with the
registries by `repair`, in registry order. -/
def reactionsContaining (m : MassModel) (mid : String) : List MassReaction :=
  m.reactions.filter (fun r => r.metabolites.any (fun p => p.1.id = mid))

/-- Whether `mid` is a reactant of `r` (`metabolite in rxn.reactants`). -/
def isReactantOf (r : MassReaction) (mid : String) : Bool :=
  (reactants r).any (fun p => p.1.id = mid)

/-- The accumulation loop of `generate_ode`: a reaction with a registered
custom rate makes the python function print
`FIXME: IMPLEMENT CUSTOM RATES` and return `None` (`none` here); otherwise
the reaction's rate expression, negated for a reactant, is added. -/
def odeLoop (m : MassModel) (mid : String) :
    List MassReaction → SExpr → Option SExpr
  | [], acc => some acc
  | r :: rest, acc =>
    if akey r.id m.custom_rates then none
    else
      match rateExpression r with
      | none => none
      | some rl =>
        let rl := if isReactantOf r mid then SExpr.mul (.num (-1)) rl else rl
        odeLoop m mid rest (.add acc rl)

/-- `generate_ode` (`mass/core/expressions.py` lines 146-164): `none` for a
metabolite participating in no reaction, otherwise the signed rate
expressions accumulated into a sum starting from zero. -/
def generateOde (m : MassModel) (mid : String) : Option SExpr :=
  let rxns := reactionsContaining m mid
  if rxns.isEmpty then none
  else odeLoop m mid rxns (.num 0)

/-- The `odes` property (`mass/core/massmodel.py` lines 184-190): one entry
per metabolite not in the fixed-concentration map. -/
def odesProp (m : MassModel) : List (String × Option SExpr) :=
  (m.metabolites.filter (fun mm => !(akey mm.id m.fixed_concentrations))).map
    (fun mm => (mm.id, generateOde m mm.id))

/-- Modelled from the spec: `expressions.create_custom_rate` is called by
`add_custom_rate` but absent from `src/`.  Per §4.5 it "builds a symbolic
expression from the supplied form" with the listed parameter names bound
as symbols; with the supplied form already symbolic this is the expression
itself. -/
def createCustomRate (_r : MassReaction) (rate : SExpr)
    (_customParamList : List String) : SExpr := rate

/-- `add_custom_rate` (`mass/core/massmodel.py` lines 895-946): collect the
supplied parameter names, extend them with already-known custom parameters
referenced by the rate (the `re.search(custom_param, custom_rate)` check,
modelled as occurrence of the parameter symbol in the supplied form),
build the symbolic expression, store it keyed by the reaction, and merge
the supplied parameter values. -/
def addCustomRate (m : MassModel) (r : MassReaction) (rate : SExpr)
    (customParameters : List (String × ℚ)) : MassModel :=
  let customParamList := customParameters.map Prod.fst
  let customParamList := customParamList ++
    (m.custom_parameters.map Prod.fst).filter
      (fun p => (symsOf rate).contains p && !(customParamList.contains p))
  let expr := createCustomRate r rate customParamList
  { m with custom_rates := aset m.custom_rates r.id expr,
           custom_parameters := aupdate m.custom_parameters customParameters }

/-- The custom-rate map after `del self.custom_rates[reaction]`. -/
def remainingRates (m : MassModel) (rid : String) : List (String × SExpr) :=
  m.custom_rates.filter (fun p => !(p.1 == rid))

/-- The symbol set of the removed custom rate minus every symbol appearing
in some remaining custom rate (lines 966-974): these are the symbols
`remove_custom_rate` goes on to `del` from the custom-parameter map. -/
def unsharedSyms (m : MassModel) (rid : String) (rate : SExpr) :
    List String :=
  let remaining := remainingRates m rid
  let syms := (symsOf rate).dedup
  if remaining.isEmpty then syms
  else syms.filter (fun s =>
    !(remaining.any (fun p => (symsOf p.2).contains s)))

/-- `remove_custom_rate` (`mass/core/massmodel.py` lines 948-987): delete
the reaction's custom rate, keep the symbols of the removed expression not
appearing in any remaining custom rate, and `del` each of them from the
custom-parameter map — a symbol that is not a stored custom parameter
raises `KeyError` (`none`).  Because `atoms(sp.Symbol)` includes the time
symbol `t` of every applied concentration function, a removed rate
containing a concentration function crashes the same way whenever no
remaining custom rate also carries a function (and `t` is not itself a
stored parameter). -/
def removeCustomRate (m : MassModel) (rid : String) : Option MassModel :=
  match alookup rid m.custom_rates with
  | none => none
  | some rate =>
    match (unsharedSyms m rid rate).foldlM
        (fun ps s => adelete ps s) m.custom_parameters with
    | none => none
    | some params =>
      some { m with custom_rates := remainingRates m rid,
                    custom_parameters := params }

/-- Character-list test: `p` starts the list. -/
def listStartsWith : List Char → List Char → Bool
  | [], _ => true
  | _ :: _, [] => false
  | a :: as, b :: bs => a == b && listStartsWith as bs

/-- Character-list substring test. -/
def listHasSub (p : List Char) : List Char → Bool
  | [] => p.isEmpty
  | l@(_ :: rest) => listStartsWith p l || listHasSub p rest

/-- Substring search: for plain-identifier patterns this is exactly the
`re.search(pattern, s)` test used by the source. -/
def hasSub (pat s : String) : Bool := listHasSub pat.toList s.toList

/-- The `re.search("kf|Keq|kr", str(sym))` rate-parameter classifier of
`_sort_symbols`. -/
def regexRateParam (s : String) : Bool :=
  hasSub "kf" s || hasSub "Keq" s || hasSub "kr" s

/-- `_sort_symbols` (`mass/core/expressions.py` lines 500-542) at rate
type 1 as forced by `calc_PERCS`: the rate dictionary plus the symbol
classes collected from the ODE expressions.  A `None` ODE (orphan
metabolite or the unimplemented custom-rate path) makes
`expression.atoms` raise, and a fixed-concentration metabolite function
reaches the nonexistent `model.rate_expressions` attribute; both crashes
are `none`. -/
def sortSymbols (m : MassModel) :
    Option (List (String × Option SExpr) × List String × List String ×
      List String) := do
  let rate_dict ← generateRateLaws m 1
  let odes ← (odesProp m).foldrM (fun p acc => do
      let e ← p.2
      pure ((p.1, e) :: acc)) []
  let allSyms := ((odes.map (fun p => symsOf p.2)).flatten).dedup
  let rate_symbols := allSyms.filter (fun s => regexRateParam s)
  let fixed_symbols := allSyms.filter (fun s => akey s m.fixed_concentrations)
  let custom_symbols := allSyms.filter (fun s => akey s m.custom_parameters)
  let _ ← odes.foldlM (fun (_ : Unit) p =>
      (funcsOf p.2).foldlM (fun (_ : Unit) fname => do
        let mm ← m.metabolites.find? (fun mm => mm.id = fname)
        if akey mm.id m.fixed_concentrations then none else some ()) ()) ()
  some (rate_dict, rate_symbols, fixed_symbols, custom_symbols)

/-- The `steady_state_fluxes` property (`mass/core/massmodel.py` lines
219-223): the reactions holding a stored flux. -/
def steadyStateFluxes (m : MassModel) : List (String × ℚ) :=
  m.reactions.filterMap (fun r => r.ssflux.map (fun f => (r.id, f)))

/-- Modelled from the spec: `qcqa.get_missing_parameters`
(`mass.util.qcqa` is not under `src/`).  Per §4.7 every reaction needs its
equilibrium constant, optionally its steady-state flux, and every custom
parameter its custom rate uses; missing items are aggregated per
reaction.  The time symbol `t` contributed by applied concentration
functions is not a parameter and is never reported missing. -/
def getMissingParameters (m : MassModel) (checkSsflux : Bool) :
    List (String × List String) :=
  m.reactions.filterMap (fun (r : MassReaction) =>
    let missing :=
      (if r.Keq.isNone then ["Keq"] else []) ++
      (if checkSsflux && r.ssflux.isNone then ["ssflux"] else []) ++
      (match alookup r.id m.custom_rates with
       | some e => (symsOf e).dedup.filter
           (fun s => !(akey s m.custom_parameters) && !(regexRateParam s) &&
             !(s = "t"))
       | none => [])
    if missing.isEmpty then none else some (r.id, missing))

/-- The per-rate symbol classification of `calc_PERCS` (lines 1444-1458):
build the substitution map and identify the PERC unknown.  A failed
attribute or dictionary read is a raised exception (`none`); `prevPerc`
threads the loop variable `perc`, which python keeps across iterations of
the outer reaction loop. -/
def buildValues (m : MassModel) (r : MassReaction)
    (rateParams fixedSyms customSyms : List String) (rate : SExpr)
    (prevPerc : Option String) :
    Option (List (String × ℚ) × Option String) :=
  (symsOf rate).dedup.foldlM (fun acc s =>
    if rateParams.contains s then
      if hasSub "Keq" s then
        match r.Keq with
        | none => none
        | some keq => some (aset acc.1 s keq, acc.2)
      else some (acc.1, some s)
    else if customSyms.contains s then
      match alookup s m.custom_parameters with
      | none => none
      | some v => some (aset acc.1 s v, acc.2)
    else if fixedSyms.contains s then
      match alookup s m.fixed_concentrations with
      | none => none
      | some v => some (aset acc.1 s v, acc.2)
    else
      match m.metabolites.find? (fun mm => mm.id = s) with
      | none => none
      | some mm =>
        match alookup mm.id m.initial_conditions with
        | none => none
        | some v => some (aset acc.1 s v, acc.2)) ([], prevPerc)

/-- Lines 1460-1473 of `calc_PERCS` for one reaction: a flux of exactly
zero takes the `at_equilibrium_default` sentinel without solving;
otherwise `solveset` (the `solver` parameter) is applied and `sol.pop()`
takes an unspecified element of the solution set, modelled as the head;
`pop` on an empty set raises `KeyError` (`none`). -/
def percStep (solver : SExpr → String → ℚ → List ℚ) (default : ℚ)
    (rate : SExpr) (values : List (String × ℚ)) (perc : String) (flux : ℚ) :
    Option ℚ :=
  if flux = 0 then some default
  else (solver (substVals rate values) perc flux).head?

/-- One iteration of the `for rxn, rate in iteritems(rates)` loop of
`calc_PERCS` (lines 1442-1473): classify and substitute the rate's
symbols, read the reaction's flux, and record the computed constant under
the PERC symbol; the accumulator also threads the python loop variable
`perc`, which survives across iterations. -/
def percLoopStep (m : MassModel) (fluxes : List (String × ℚ)) (default : ℚ)
    (solver : SExpr → String → ℚ → List ℚ)
    (rateParams fixedSyms customSyms : List String)
    (acc : List (String × ℚ) × Option String) (p : String × Option SExpr) :
    Option (List (String × ℚ) × Option String) :=
  match p.2 with
  | none => none
  | some rate =>
    match m.reactions.find? (fun r => r.id = p.1) with
    | none => none
    | some r =>
      match buildValues m r rateParams fixedSyms customSyms rate acc.2 with
      | none => none
      | some (values, percOpt) =>
        match alookup p.1 fluxes with
        | none => none
        | some flux =>
          match percOpt with
          | none => none
          | some perc =>
            match percStep solver default rate values perc flux with
            | none => none
            | some v => some (aset acc.1 perc v, some perc)

/-- The aggregated missing-parameter report of `calc_PERCS` (lines
1392-1408): model fluxes checked when no flux dictionary is supplied,
otherwise each reaction absent from the supplied dictionary gains an
`ssflux` entry. -/
def percMissingParams (m : MassModel)
    (ssFluxes : Option (List (String × ℚ))) :
    List (String × List String) :=
  match ssFluxes with
  | none => getMissingParameters m true
  | some given =>
    m.reactions.foldl
      (fun (acc : List (String × List String)) (r : MassReaction) =>
      if akey r.id given then acc
      else match alookup r.id acc with
        | some l => aset acc r.id (l ++ ["ssflux"])
        | none => acc ++ [(r.id, ["ssflux"])]) (getMissingParameters m false)

/-- The missing-concentration report of `calc_PERCS` (lines 1410-1418):
metabolites without a value in the (defaulted) concentration dictionary. -/
def percMissingConcs (m : MassModel)
    (ssConcs : Option (List (String × ℚ))) : List String :=
  (m.metabolites.filter
    (fun mm => !(akey mm.id (ssConcs.getD m.initial_conditions)))).map (·.id)

/-- `calc_PERCS` (`mass/core/massmodel.py` lines 1349-1474).  The
`sp.solveset(sp.Eq(flux, rate.subs(values)), perc, domain=sp.S.Reals)`
call is the `solver` parameter: `solver e p f` is the set, as a list, of
real roots of the substituted equation in the unknown `p`.
Missing-value preconditions return `none` (the python `return None` after
the warning report). -/
def calcPERCS (m : MassModel) (ssConcs ssFluxes : Option (List (String × ℚ)))
    (default : ℚ) (solver : SExpr → String → ℚ → List ℚ) :
    Option (List (String × ℚ)) :=
  if !(percMissingParams m ssFluxes).isEmpty ||
      !(percMissingConcs m ssConcs).isEmpty then none
  else
    match sortSymbols m with
    | none => none
    | some (rates, rateParams, fixedSyms, customSyms) =>
      match (rates.map (fun p => (p.1, p.2.map stripTime))).foldlM
          (percLoopStep m (ssFluxes.getD (steadyStateFluxes m)) default
            solver rateParams fixedSyms customSyms)
          (([], none) : List (String × ℚ) × Option String) with
      | none => none
      | some res => some res.1

/-- The PERC symbol selected by the classification loop for one rate,
starting from a previous value of the loop variable: the last symbol of
the iteration matching the rate-parameter pattern without `Keq`. -/
def percFold (rateParams : List String) (l : List String)
    (pv : Option String) : Option String :=
  l.foldl (fun acc s =>
    if rateParams.contains s && !(hasSub "Keq" s) then some s else acc) pv

/-- `add_metabolites` for the single metabolite added from a reaction's
coefficient map by `add_reactions` (with `add_initial_conditons=True`):
skip an already-registered identifier, otherwise append to the registry
and record the metabolite's initial condition when it has one. -/
def addMetaboliteFromRef (m : MassModel) (mr : MetabRef) : MassModel :=
  if m.metabolites.any (fun mm => mm.id = mr.id) then m
  else
    { m with
      metabolites := m.metabolites ++ [⟨mr.id, mr.elements, mr.ic, []⟩],
      initial_conditions :=
        match mr.ic with
        | some v => aupdate m.initial_conditions [(mr.id, v)]
        | none => m.initial_conditions }

/-- `metab._reaction.add(rxn)`: record the reaction identifier in the
registry metabolite's back-reference set. -/
def addBackref (m : MassModel) (mid rid : String) : MassModel :=
  { m with metabolites := m.metabolites.map (fun mm =>
      if mm.id = mid then
        { mm with reactionRefs :=
            if mm.reactionRefs.contains rid then mm.reactionRefs
            else mm.reactionRefs ++ [rid] }
      else mm) }

/-- The metabolite loop of `add_reactions` for one reaction (lines
579-595): a metabolite absent from the registry is added with its initial
condition and gains the back-reference; an existing one has the reaction's
coefficient map repointed to the registry object (identifier indirection
makes the repoint itself implicit) and gains the back-reference. -/
def addRxnMetabolites (m : MassModel) (r : MassReaction) : MassModel :=
  r.metabolites.foldl (fun acc p =>
    if acc.metabolites.any (fun mm => mm.id = p.1.id) then
      addBackref acc p.1.id r.id
    else
      addBackref (addMetaboliteFromRef acc p.1) p.1.id r.id) m

/-- The gene loop of `add_reactions` (lines 597-612): register genes not
yet in the model. -/
def addRxnGenes (m : MassModel) (r : MassReaction) : MassModel :=
  r.genes.foldl (fun acc g =>
    if acc.genes.contains g then acc
    else { acc with genes := acc.genes ++ [g] }) m

/-- `add_reactions` (`mass/core/massmodel.py` lines 535-625): skip
reactions whose identifier already exists, process each remaining
reaction's metabolites and genes, then append the reactions to the
registry.  The `update_stoichiometry` flag and the context/undo
bookkeeping are outside the claims and omitted. -/
def addReactions (m : MassModel) (reactionList : List MassReaction) :
    MassModel :=
  let rlist := reactionList.filter
    (fun r => !(m.reactions.any (fun r2 => r2.id = r.id)))
  let m2 := rlist.foldl (fun acc r => addRxnGenes (addRxnMetabolites acc r) r) m
  { m2 with reactions := m2.reactions ++ rlist }

/-! ## Concrete instances used by witnesses and counterexamples -/

/-- Metabolite `A` with initial condition 1. -/
def metA : MetabRef := ⟨"A", [], some 1⟩

/-- Metabolite `B` with initial condition 2. -/
def metB : MetabRef := ⟨"B", [], some 2⟩

/-- Reversible reaction `v1 : A <=> B`. -/
def rxnAB : MassReaction :=
  { id := "v1", metabolites := [(metA, -1), (metB, 1)], reversible := true,
    Keq := some 4, kf := some 2, kr := some (1/2), ssflux := some 1 }

/-- Irreversible demand reaction `v2 : B -> `. -/
def rxnBdm : MassReaction :=
  { id := "v2", metabolites := [(metB, -1)], reversible := false,
    Keq := some 1, kf := some 3, ssflux := some 1 }

/-- Two-metabolite, two-reaction model with consistent registries. -/
def mW : MassModel :=
  { metabolites := [⟨"A", [], some 1, ["v1"]⟩, ⟨"B", [], some 2, ["v1", "v2"]⟩],
    reactions := [rxnAB, rxnBdm],
    initial_conditions := [("A", 1), ("B", 2)] }

/-- Reaction `w1 : A -> ` of the pre-append model of C2. -/
def rxnC2a : MassReaction :=
  { id := "w1", metabolites := [(metA, -1)], reversible := false }

/-- Reaction `w2 : -> A`, newly appended at the end of the registry. -/
def rxnC2b : MassReaction :=
  { id := "w2", metabolites := [(metA, 1)], reversible := false }

/-- The model state in which the incremental path of `update_S` runs for
C2: `w2` already appended to the reaction registry, the cached `_S` still
the 1×1 full build of the pre-append model. -/
def mC2 : MassModel :=
  { metabolites := [⟨"A", [], some 1, ["w1", "w2"]⟩],
    reactions := [rxnC2a, rxnC2b],
    initial_conditions := [("A", 1)],
    Scache := some ⟨1, 1, fun i j => if i = 0 ∧ j = 0 then -1 else 0⟩ }

/-- A custom rate expression `k1 * A(t)` for reaction `v1`. -/
def cexprC3 : SExpr := .mul (.sym "k1") (.func "A")

/-- The model `mW` with the custom rate `cexprC3` registered for `v1` and
its parameter `k1 = 2` stored. -/
def mC3 : MassModel :=
  { metabolites := [⟨"A", [], some 1, ["v1"]⟩, ⟨"B", [], some 2, ["v1", "v2"]⟩],
    reactions := [rxnAB, rxnBdm],
    initial_conditions := [("A", 1), ("B", 2)],
    custom_rates := [("v1", cexprC3)],
    custom_parameters := [("k1", 2)] }

/-- A model whose custom rate for `v1` references both a custom parameter
`k1` and the reaction's own forward rate constant `kf_v1` (sanctioned by
the `add_custom_rate` docstring), used by the C9 counterexample. -/
def mC9 : MassModel :=
  { metabolites := [⟨"A", [], some 1, ["v1"]⟩, ⟨"B", [], some 2, ["v1", "v2"]⟩],
    reactions := [rxnAB, rxnBdm],
    initial_conditions := [("A", 1), ("B", 2)],
    custom_rates := [("v1", .mul (.sym "k1") (.sym "kf_v1"))],
    custom_parameters := [("k1", 2)] }

/-- A model with two custom rates sharing the parameter `k2`, used by the
C9 witness: removing the `v1` rate must delete `k1` but keep `k2`. -/
def mC9b : MassModel :=
  { metabolites := [⟨"A", [], some 1, ["v1"]⟩, ⟨"B", [], some 2, ["v1", "v2"]⟩],
    reactions := [rxnAB, rxnBdm],
    initial_conditions := [("A", 1), ("B", 2)],
    custom_rates := [("v1", .mul (.sym "k1") (.sym "k2")),
                     ("v2", .mul (.sym "k2") (.func "B"))],
    custom_parameters := [("k1", 2), ("k2", 3)] }

/-- Irreversible reaction `p1 : A -> ` with a stored steady-state flux of
zero, for the C7 witness. -/
def rxnP0 : MassReaction :=
  { id := "p1", metabolites := [(metA, -1)], reversible := false,
    Keq := some 1, ssflux := some 0 }

/-- One-reaction model with a zero steady-state flux. -/
def mP0 : MassModel :=
  { metabolites := [⟨"A", [], some 1, ["p1"]⟩],
    reactions := [rxnP0],
    initial_conditions := [("A", 1)] }

/-- Irreversible reaction `p1 : A -> ` with a nonzero stored flux, for the
C8 theorems. -/
def rxnP1 : MassReaction :=
  { id := "p1", metabolites := [(metA, -1)], reversible := false,
    Keq := some 1, ssflux := some 1 }

/-- One-reaction model with a nonzero steady-state flux. -/
def mP1 : MassModel :=
  { metabolites := [⟨"A", [], some 1, ["p1"]⟩],
    reactions := [rxnP1],
    initial_conditions := [("A", 1)] }

/-- A solver reporting two real roots for every equation: the multi-root
scenario of C8. -/
def solverTwoRoots : SExpr → String → ℚ → List ℚ := fun _ _ _ => [5, 7]

/-- A solver reporting an empty real solution set for every equation. -/
def solverNoRoots : SExpr → String → ℚ → List ℚ := fun _ _ _ => []

/-- The empty model, used by the C10 witness. -/
def mEmpty : MassModel := {}

/-- Valuation for the C6 counterexample: `kf_v1 = 2`, `kr_v1 = 1`, all
other symbols 0. -/
def vC6 : String → ℚ :=
  fun s => if s = "kf_v1" then 2 else if s = "kr_v1" then 1 else 0

/-- Concentration valuation for the C6 counterexample: `A(t) = 1`,
`B(t) = 0`. -/
def cC6 : String → ℚ := fun s => if s = "A" then 1 else 0

/-- The substitution target `kf / kr` of C6, for reaction `r`: the sympy
form `Mul(kf, Pow(kr, -1))`. -/
def keqRepl (r : MassReaction) : SExpr :=
  .mul (.sym (symKf r)) (.pow (.sym (symKr r)) (-1))

/-! ## Helper lemmas -/

theorem alookup_aset_eq {β : Type} (m : List (String × β)) (k : String)
    (v : β) : alookup k (aset m k v) = some v := by
  induction m with
  | nil => simp [aset, alookup]
  | cons p rest ih =>
    by_cases h : p.1 = k
    · simp [aset, h, alookup]
    · simp [aset, h, alookup, ih]

theorem alookup_aset_ne {β : Type} (m : List (String × β)) (k k' : String)
    (v : β) (h : k' ≠ k) : alookup k' (aset m k v) = alookup k' m := by
  have hks : ¬ k = k' := fun hh => h hh.symm
  induction m with
  | nil => simp [aset, alookup, hks]
  | cons p rest ih =>
    by_cases hp : p.1 = k
    · have hpk : ¬ p.1 = k' := by rw [hp]; exact hks
      simp [aset, hp, alookup, hks, hpk]
    · simp [aset, hp, alookup, ih]

theorem alookup_aupdate_of_forall_ne {β : Type} (base upd : List (String × β))
    (k : String) (h : ∀ p ∈ upd, p.1 ≠ k) :
    alookup k (aupdate base upd) = alookup k base := by
  induction upd generalizing base with
  | nil => simp [aupdate]
  | cons p rest ih =>
    have hbase : alookup k (aset base p.1 p.2) = alookup k base :=
      alookup_aset_ne base p.1 k p.2 (fun hh => h p (by simp) hh.symm)
    have := ih (aset base p.1 p.2) (fun q hq => h q (by simp [hq]))
    simpa [aupdate, hbase] using this.trans hbase

theorem alookup_aupdate_mem {β : Type} (base upd : List (String × β))
    (k : String) (v : β) (hn : (upd.map Prod.fst).Nodup)
    (hm : (k, v) ∈ upd) :
    alookup k (aupdate base upd) = some v := by
  induction upd generalizing base with
  | nil => simp at hm
  | cons p rest ih =>
    rcases List.mem_cons.mp hm with h1 | h1
    · subst h1
      have hk : (k : String) ∉ rest.map Prod.fst :=
        (List.nodup_cons.mp (by simpa using hn)).1
      have hrest : ∀ q ∈ rest, q.1 ≠ k := by
        intro q hq hqk
        exact hk (hqk ▸ List.mem_map_of_mem Prod.fst hq)
      have : alookup k (aupdate (aset base k v) rest) =
          alookup k (aset base k v) :=
        alookup_aupdate_of_forall_ne _ _ _ hrest
      simpa [aupdate] using this.trans (alookup_aset_eq base k v)
    · have hn2 : (rest.map Prod.fst).Nodup := (List.nodup_cons.mp hn).2
      simpa [aupdate] using ih (aset base p.1 p.2) hn2 h1

theorem akey_iff_mem {β : Type} (k : String) (m : List (String × β)) :
    akey k m = true ↔ k ∈ m.map Prod.fst := by
  simp [akey, List.any_eq_true, List.mem_map]

theorem regIndex_spec (ids : List String) (s : String) (i : ℕ)
    (h : regIndex ids s = some i) :
    ∃ hi : i < ids.length, ids.get ⟨i, hi⟩ = s := by
  induction ids generalizing i with
  | nil => simp [regIndex] at h
  | cons a rest ih =>
    by_cases ha : a = s
    · simp [regIndex, ha] at h
      subst h
      exact ⟨by simp, by simpa using ha⟩
    · simp [regIndex, ha] at h
      rcases h with ⟨j, hj, hji⟩
      rcases ih j hj with ⟨hlt, hget⟩
      subst hji
      exact ⟨by simpa using Nat.succ_lt_succ hlt, by simpa using hget⟩

theorem regIndex_isSome (ids : List String) (s : String) (h : s ∈ ids) :
    ∃ i, regIndex ids s = some i := by
  induction ids with
  | nil => simp at h
  | cons a rest ih =>
    by_cases ha : a = s
    · exact ⟨0, by simp [regIndex, ha]⟩
    · have hs : s ∈ rest := by
        rcases List.mem_cons.mp h with h1 | h1
        · exact absurd h1.symm ha
        · exact h1
      rcases ih hs with ⟨i, hi⟩
      exact ⟨i + 1, by simp [regIndex, ha, hi]⟩

theorem regIndex_get (ids : List String) (hn : ids.Nodup) (i : ℕ)
    (hi : i < ids.length) : regIndex ids (ids.get ⟨i, hi⟩) = some i := by
  induction ids generalizing i with
  | nil => simp at hi
  | cons a rest ih =>
    match i with
    | 0 => simp [regIndex]
    | Nat.succ j =>
      have hj : j < rest.length := by simpa using hi
      have hna : a ∉ rest := (List.nodup_cons.mp hn).1
      have hga : rest.get ⟨j, hj⟩ ∈ rest := List.get_mem rest j hj
      have hne : ¬ a = rest.get ⟨j, hj⟩ := fun hh => hna (hh ▸ hga)
      have hrec := ih (List.nodup_cons.mp hn).2 j hj
      have hgj : (a :: rest).get ⟨j + 1, hi⟩ = rest.get ⟨j, hj⟩ := rfl
      rw [hgj]
      simp only [regIndex]
      rw [if_neg hne, hrec]
      rfl

theorem regIndex_inj (ids : List String) (a b : String) (i : ℕ)
    (ha : regIndex ids a = some i) (hb : regIndex ids b = some i) : a = b := by
  obtain ⟨hia, hga⟩ := regIndex_spec ids a i ha
  obtain ⟨hib, hgb⟩ := regIndex_spec ids b i hb
  rw [← hga, ← hgb]

theorem writeReaction_char (mids : List String) (hm : mids.Nodup) (j0 : ℕ)
    (pairs : List (MetabRef × ℤ))
    (hk : (pairs.map (fun p => p.1.id)).Nodup)
    (hall : ∀ p ∈ pairs, p.1.id ∈ mids) (f : ℕ → ℕ → ℤ) :
    ∃ g, writeReaction mids j0 pairs f = some g ∧
      (∀ i j, j ≠ j0 → g i j = f i j) ∧
      (∀ i, ∀ hi : i < mids.length,
        g i j0 =
          match pairs.find? (fun p => p.1.id = mids.get ⟨i, hi⟩) with
          | some p => p.2
          | none => f i j0) := by
  induction pairs generalizing f with
  | nil =>
    refine ⟨f, by simp [writeReaction], fun i j _ => rfl, ?_⟩
    intro i hi
    simp
  | cons p rest ih =>
    obtain ⟨ip, hip⟩ := regIndex_isSome mids p.1.id (hall p (by simp))
    obtain ⟨hiplt, hipget⟩ := regIndex_spec mids p.1.id ip hip
    have hk2 : (rest.map (fun q => q.1.id)).Nodup :=
      (List.nodup_cons.mp (by simpa using hk)).2
    have hnotin : p.1.id ∉ rest.map (fun q => q.1.id) :=
      (List.nodup_cons.mp (by simpa using hk)).1
    obtain ⟨g, hg, hgj, hgcol⟩ :=
      ih hk2 (fun q hq => hall q (by simp [hq])) (writeEntry f ip j0 p.2)
    have hstep : writeReaction mids j0 (p :: rest) f =
        writeReaction mids j0 rest (writeEntry f ip j0 p.2) := by
      simp [writeReaction, hip]
    refine ⟨g, by rw [hstep]; exact hg, ?_, ?_⟩
    · intro i j hj
      rw [hgj i j hj]
      simp [writeEntry, hj]
    · intro i hi
      by_cases heq : p.1.id = mids.get ⟨i, hi⟩
      · have hieq : i = ip := by
          have hgg : mids.get ⟨i, hi⟩ = mids.get ⟨ip, hiplt⟩ := by
            rw [hipget, ← heq]
          have := (List.Nodup.get_inj_iff hm).mp hgg
          simpa using this
        have hnone : rest.find? (fun q => q.1.id = mids.get ⟨i, hi⟩) = none := by
          rw [List.find?_eq_none]
          intro q hq hqd
          apply hnotin
          have hqe : q.1.id = p.1.id := by
            have := of_decide_eq_true hqd
            rw [this, heq]
          exact hqe ▸ List.mem_map.mpr ⟨q, hq, rfl⟩
        rw [hgcol i hi, hnone]
        simp [List.find?, heq, writeEntry, hieq]
      · have hine : i ≠ ip := by
          intro hh
          apply heq
          subst hh
          exact hipget.symm
        have hskip : (p :: rest).find? (fun q => q.1.id = mids.get ⟨i, hi⟩) =
            rest.find? (fun q => q.1.id = mids.get ⟨i, hi⟩) := by
          simp only [List.find?]
          rw [decide_eq_false heq]
        rw [hskip, hgcol i hi]
        cases hfind : rest.find? (fun q => q.1.id = mids.get ⟨i, hi⟩) with
        | some q => simp
        | none => simp [writeEntry, hine]

theorem buildWrites_char (mids rids : List String) (hm : mids.Nodup)
    (rxns : List MassReaction)
    (hr : (rxns.map (fun r => r.id)).Nodup)
    (hin : ∀ r ∈ rxns, r.id ∈ rids)
    (hkeys : ∀ r ∈ rxns, (r.metabolites.map (fun p => p.1.id)).Nodup)
    (hmem : ∀ r ∈ rxns, ∀ p ∈ r.metabolites, p.1.id ∈ mids)
    (f0 : ℕ → ℕ → ℤ) :
    ∃ g, buildWrites mids rids rxns f0 = some g ∧
      (∀ i j, (∀ r ∈ rxns, regIndex rids r.id ≠ some j) → g i j = f0 i j) ∧
      (∀ i, ∀ hi : i < mids.length, ∀ j r, r ∈ rxns →
        regIndex rids r.id = some j →
        g i j =
          match r.metabolites.find? (fun p => p.1.id = mids.get ⟨i, hi⟩) with
          | some p => p.2
          | none => f0 i j) := by
  induction rxns generalizing f0 with
  | nil =>
    refine ⟨f0, by simp [buildWrites], fun i j _ => rfl, ?_⟩
    intro i hi j r hr
    simp at hr
  | cons r0 rest ih =>
    obtain ⟨j0, hj0⟩ := regIndex_isSome rids r0.id (hin r0 (by simp))
    obtain ⟨hj0lt, hj0get⟩ := regIndex_spec rids r0.id j0 hj0
    have hr2 : (rest.map (fun r => r.id)).Nodup :=
      (List.nodup_cons.mp (by simpa using hr)).2
    have hr0notin : r0.id ∉ rest.map (fun r => r.id) :=
      (List.nodup_cons.mp (by simpa using hr)).1
    obtain ⟨f1, hf1, hf1j, hf1col⟩ :=
      writeReaction_char mids hm j0 r0.metabolites (hkeys r0 (by simp))
        (hmem r0 (by simp)) f0
    obtain ⟨g, hg, hga, hgb⟩ := ih hr2 (fun r h => hin r (by simp [h]))
      (fun r h => hkeys r (by simp [h])) (fun r h => hmem r (by simp [h])) f1
    have hstep : buildWrites mids rids (r0 :: rest) f0 =
        buildWrites mids rids rest f1 := by
      simp only [buildWrites, List.foldlM_cons, hj0]
      rw [show writeReaction mids j0 r0.metabolites f0 = some f1 from hf1]
      rfl
    have hrestne : ∀ r ∈ rest, regIndex rids r.id ≠ some j0 := by
      intro r h hc
      apply hr0notin
      have : r.id = r0.id := regIndex_inj rids r.id r0.id j0 hc hj0
      exact this ▸ List.mem_map.mpr ⟨r, h, rfl⟩
    refine ⟨g, by rw [hstep]; exact hg, ?_, ?_⟩
    · intro i j hnone
      have hj0ne : j ≠ j0 := by
        intro hh
        exact hnone r0 (by simp) (hh ▸ hj0)
      rw [hga i j (fun r h => hnone r (by simp [h])), hf1j i j hj0ne]
    · intro i hi j r hrmem hjr
      rcases List.mem_cons.mp hrmem with h1 | h1
      · subst h1
        have hjj0 : j = j0 := Option.some.inj (hjr.symm.trans hj0)
        subst hjj0
        rw [hga i j hrestne, hf1col i hi]
      · have hjne : j ≠ j0 := fun hh => hrestne r h1 (hh ▸ hjr)
        rw [hgb i hi j r h1 hjr]
        cases hfind : r.metabolites.find? (fun p => p.1.id = mids.get ⟨i, hi⟩) with
        | some q => simp
        | none => simp [hf1j i j hjne]

/-! ## C1 -/

/-- C1: for every model with at least one metabolite and one reaction and
well-formed registries (unique identifiers; each reaction's coefficient
map keyed by distinct, registered metabolites), the matrix built by
`_create_stoichiometric_matrix` — also what `update_S` with no reaction
list, hence the `S` property, returns — has one row per registry
metabolite in registry order, one column per registry reaction in registry
order, and entry (i, j) equal to the signed stoichiometric coefficient of
metabolite i in reaction j, with `0` at every position where the
metabolite does not participate in the reaction. -/
theorem c1_stoichiometric_matrix_entries (m : MassModel)
    (hm : (metaboliteIds m).Nodup) (hr : (reactionIds m).Nodup)
    (hkeys : ∀ r ∈ m.reactions, (r.metabolites.map (fun p => p.1.id)).Nodup)
    (hmem : ∀ r ∈ m.reactions, ∀ p ∈ r.metabolites, p.1.id ∈ metaboliteIds m)
    (hma : m.metabolites.length ≠ 0) (hrx : m.reactions.length ≠ 0) :
    ∃ s, createStoichiometricMatrix m = some s ∧
      updateS m none = some s ∧
      s.rows = m.metabolites.length ∧ s.cols = m.reactions.length ∧
      ∀ i j, ∀ hi : i < m.metabolites.length, ∀ hj : j < m.reactions.length,
        s.entry i j =
          coeffOf (m.reactions.get ⟨j, hj⟩)
            ((m.metabolites.get ⟨i, hi⟩).id) := by
  obtain ⟨g, hg, _, hcol⟩ := buildWrites_char (metaboliteIds m)
    (reactionIds m) hm m.reactions hr
    (fun r h => List.mem_map.mpr ⟨r, h, rfl⟩) hkeys hmem (fun _ _ => 0)
  have hupd : updateS m none = createStoichiometricMatrix m := by
    cases hc : m.Scache <;> simp [updateS, hc]
  refine ⟨⟨m.metabolites.length, m.reactions.length, g⟩, ?_, ?_, rfl, rfl, ?_⟩
  · simp [createStoichiometricMatrix, hma, hrx, hg]
  · rw [hupd]
    simp [createStoichiometricMatrix, hma, hrx, hg]
  · intro i j hi hj
    have hi2 : i < (metaboliteIds m).length := by
      simpa [metaboliteIds] using hi
    have hj2 : j < (reactionIds m).length := by
      simpa [reactionIds] using hj
    have hgetr : (reactionIds m).get ⟨j, hj2⟩ = (m.reactions.get ⟨j, hj⟩).id := by
      simp [reactionIds, List.get_eq_getElem, List.getElem_map]
    have hjr : regIndex (reactionIds m) ((m.reactions.get ⟨j, hj⟩).id) =
        some j := by
      rw [← hgetr]
      exact regIndex_get (reactionIds m) hr j hj2
    have hgetm : (metaboliteIds m).get ⟨i, hi2⟩ =
        (m.metabolites.get ⟨i, hi⟩).id := by
      simp [metaboliteIds, List.get_eq_getElem, List.getElem_map]
    have := hcol i hi2 j (m.reactions.get ⟨j, hj⟩)
      (List.get_mem m.reactions j hj) hjr
    rw [hgetm] at this
    exact this

/-- Witness for C1 at the concrete model `mW`. -/
theorem c1_stoichiometric_matrix_entries_witness :
    ∃ s, createStoichiometricMatrix mW = some s ∧ updateS mW none = some s ∧
      s.rows = 2 ∧ s.cols = 2 ∧
      s.entry 0 0 = -1 ∧ s.entry 1 0 = 1 ∧ s.entry 0 1 = 0 ∧
      s.entry 1 1 = -1 := by
  obtain ⟨s, h1, h2, h3, h4, h5⟩ :=
    c1_stoichiometric_matrix_entries mW (by decide) (by decide)
      (by decide) (by decide) (by decide) (by decide)
  refine ⟨s, h1, h2, h3, h4, ?_, ?_, ?_, ?_⟩
  · rw [h5 0 0 (by decide) (by decide)]; decide
  · rw [h5 1 0 (by decide) (by decide)]; decide
  · rw [h5 0 1 (by decide) (by decide)]; decide
  · rw [h5 1 1 (by decide) (by decide)]; decide

/-! ## C2 -/

/-- C2 — the code evaluated at the failing input: with the cached 1×1
matrix of the pre-append model, the incremental path of `update_S` returns
the stale cached matrix (1×1, without the new reaction), because the final
`self._convert_S(matrix_type)` of `_update_stoichiometry` re-reads the
unmodified `self._S` instead of the resized and updated working copy; the
full rebuild from the registries is the 1×2 matrix carrying the new
reaction's entry.  The two disagree already in their dimensions, refuting
the claimed equivalence. -/
theorem c2_incremental_update_returns_stale_matrix :
    (updateS mC2 (some [rxnC2b])).map
        (fun s => (s.rows, s.cols, s.entry 0 0)) = some (1, 1, -1) ∧
    (createStoichiometricMatrix mC2).map
        (fun s => (s.rows, s.cols, s.entry 0 0, s.entry 0 1))
      = some (1, 2, -1, 1) ∧
    ((1 : ℕ), (1 : ℕ)) ≠ ((1 : ℕ), (2 : ℕ)) := by
  refine ⟨by decide, by decide, by decide⟩

/-! ## C3 -/

/-- C3 — the code evaluated at the failing input: for reaction `v1` with
registered custom rate `k1*A(t)`, the model's rate map does use the custom
expression, but `generate_ode` returns `None` (after printing
`FIXME: IMPLEMENT CUSTOM RATES`) for metabolite `A`, which participates in
`v1` — the custom rate is not used in the metabolite ODEs. -/
theorem c3_custom_rate_not_used_in_odes :
    alookup "v1" (ratesProp mC3) = some (some cexprC3) ∧
    generateOde mC3 "A" = none ∧
    reactionsContaining mC3 "A" ≠ [] ∧
    alookup "A" (odesProp mC3) = some none := by
  refine ⟨by decide, by decide, by decide, by decide⟩

/-! ## C4 -/

/-- C4: for every reaction and custom rate form with named parameters
(distinct names), after `add_custom_rate` the custom-rate map holds the
built symbolic expression keyed by the reaction, and the custom-parameter
map holds every supplied parameter value; already-known custom parameters
referenced by the rate are rebound rather than duplicated
(spec-modelled `create_custom_rate`). -/
theorem c4_add_custom_rate (m : MassModel) (r : MassReaction) (rate : SExpr)
    (params : List (String × ℚ)) (hn : (params.map Prod.fst).Nodup) :
    alookup r.id (addCustomRate m r rate params).custom_rates = some rate ∧
    ∀ k v, (k, v) ∈ params →
      alookup k (addCustomRate m r rate params).custom_parameters = some v := by
  constructor
  · simp only [addCustomRate, createCustomRate]
    exact alookup_aset_eq _ _ _
  · intro k v hkv
    simp only [addCustomRate]
    exact alookup_aupdate_mem _ _ _ _ hn hkv

/-- Witness for C4: registering `k1*A(t)` with `k1 = 2` for `v1`. -/
theorem c4_add_custom_rate_witness :
    alookup "v1" (addCustomRate mW rxnAB cexprC3 [("k1", 2)]).custom_rates
      = some cexprC3 ∧
    alookup "k1" (addCustomRate mW rxnAB cexprC3 [("k1", 2)]).custom_parameters
      = some 2 := by
  obtain ⟨h1, h2⟩ := c4_add_custom_rate mW rxnAB cexprC3 [("k1", 2)] (by decide)
  exact ⟨h1, h2 "k1" 2 (by decide)⟩

/-! ## C5 -/

theorem odeLoop_eval (m : MassModel) (mid : String) :
    ∀ (l : List MassReaction) (acc : SExpr),
      (∀ r ∈ l, akey r.id m.custom_rates = false) →
      (∀ r ∈ l, (rateExpression r).isSome) →
      ∃ e, odeLoop m mid l acc = some e ∧ ∀ v c,
        evalS v c e = evalS v c acc +
          (l.map (fun r => (if isReactantOf r mid then (-1 : ℚ) else 1) *
            (rateExpression r).elim 0 (evalS v c))).sum
  | [], acc, _, _ => ⟨acc, rfl, fun v c => by simp [odeLoop]⟩
  | r :: rest, acc, hnc, hre => by
    have hc := hnc r (by simp)
    obtain ⟨rl, hrl⟩ := Option.isSome_iff_exists.mp (hre r (by simp))
    obtain ⟨e, he, hev⟩ := odeLoop_eval m mid rest
      (.add acc (if isReactantOf r mid then SExpr.mul (.num (-1)) rl else rl))
      (fun q hq => hnc q (by simp [hq]))
      (fun q hq => hre q (by simp [hq]))
    refine ⟨e, ?_, ?_⟩
    · simp only [odeLoop, hc, Bool.false_eq_true, if_false, hrl]
      exact he
    · intro v c
      rw [hev v c]
      simp only [List.map_cons, List.sum_cons, hrl]
      by_cases hR : isReactantOf r mid <;> simp [hR, evalS] <;> ring

/-- C5 (amended): for every metabolite not in the fixed-concentration map
— fixed ones are excluded from the ODE set — the assembled ODE is an
explicit `none` when the metabolite participates in no reaction, and
otherwise, provided no containing reaction carries a registered custom
rate (that path is unimplemented, see C3) and each containing reaction has
a defined rate expression, the ODE evaluates at every valuation to the sum
over the containing reactions of sign times the reaction's rate law, the
sign being -1 for a reactant and +1 for a product. -/
theorem c5_ode_assembly (m : MassModel) (mid : String) :
    (∀ p ∈ odesProp m, akey p.1 m.fixed_concentrations = false) ∧
    (reactionsContaining m mid = [] → generateOde m mid = none) ∧
    ((∀ r ∈ reactionsContaining m mid, akey r.id m.custom_rates = false) →
      (∀ r ∈ reactionsContaining m mid, (rateExpression r).isSome) →
      reactionsContaining m mid ≠ [] →
      ∃ e, generateOde m mid = some e ∧ ∀ v c,
        evalS v c e =
          ((reactionsContaining m mid).map
            (fun r => (if isReactantOf r mid then (-1 : ℚ) else 1) *
              (rateExpression r).elim 0 (evalS v c))).sum) := by
  refine ⟨?_, ?_, ?_⟩
  · intro p hp
    simp only [odesProp, List.mem_map, List.mem_filter] at hp
    obtain ⟨mm, ⟨_, hpred⟩, hpe⟩ := hp
    rw [← hpe]
    simpa using hpred
  · intro h
    simp [generateOde, h]
  · intro hnc hre hne
    obtain ⟨e, he, hev⟩ :=
      odeLoop_eval m mid (reactionsContaining m mid) (.num 0) hnc hre
    refine ⟨e, ?_, ?_⟩
    · rw [generateOde, if_neg (by simpa [List.isEmpty_iff] using hne)]
      exact he
    · intro v c
      rw [hev v c]
      simp [evalS]

/-- Counterexample for C5 as stated: in `mC3` the metabolite `A` is not
fixed, participates in reaction `v1` (whose rate expression is defined),
yet the assembler produces no ODE at all — `v1` carries a custom rate and
`generate_ode` returns `None` on that unimplemented path instead of the
claimed signed sum. -/
theorem c5_ode_assembly_counterexample :
    generateOde mC3 "A" = none ∧
    reactionsContaining mC3 "A" ≠ [] ∧
    akey "A" mC3.fixed_concentrations = false ∧
    (∀ r ∈ reactionsContaining mC3 "A", (rateExpression r).isSome) := by
  refine ⟨by decide, by decide, by decide, by decide⟩

/-- Witness for C5 at `mW`, metabolite `A`: the assembled ODE exists and
evaluates to the signed sum (value -2 at the sample valuation). -/
theorem c5_ode_assembly_witness :
    ∃ e, generateOde mW "A" = some e ∧ evalS vC6 cC6 e = -2 := by
  obtain ⟨e, he, hev⟩ := (c5_ode_assembly mW "A").2.2
    (by decide) (by decide) (by decide)
  have hE : generateOde mW "A" = some (SExpr.add (.num 0)
      (.mul (.num (-1)) (.mul (.sym "kf_v1")
        (.add (.mul (.num 1) (.func "A"))
          (.mul (.num (-1))
            (.mul (.pow (.sym "Keq_v1") (-1)) (.func "B"))))))) := by decide
  rw [he] at hE
  obtain rfl := Option.some.inj hE
  refine ⟨_, he, ?_⟩
  have hBA : ¬ "B" = "A" := by decide
  have hq1 : ¬ "Keq_v1" = "kf_v1" := by decide
  have hq2 : ¬ "Keq_v1" = "kr_v1" := by decide
  norm_num [evalS, vC6, cC6, zpow_neg_one, hBA, hq1, hq2]

/-! ## C6 -/

theorem symKf_ne_symKeq (r : MassReaction) : ¬ symKf r = symKeq r := by
  intro h
  have h2 : (symKf r).data = (symKeq r).data := by rw [h]
  simp [symKf, symKeq, String.data_append] at h2

theorem evalS_maFold (v c : String → ℚ) (l : List (MetabRef × ℤ))
    (e0 : SExpr) :
    evalS v c (maFold l e0) =
      evalS v c e0 * (l.map (fun p => evalS v c (powTerm p))).prod := by
  induction l generalizing e0 with
  | nil => simp [maFold]
  | cons p rest ih =>
    show evalS v c (maFold rest (.mul e0 (powTerm p))) = _
    rw [ih]
    simp [evalS]
    ring

theorem substSym_powTerm (n : String) (rp : SExpr) (p : MetabRef × ℤ) :
    substSym n rp (powTerm p) = powTerm p := by
  unfold powTerm
  split <;> simp [substSym]

theorem substSym_maFold (n : String) (rp : SExpr) (l : List (MetabRef × ℤ))
    (e0 : SExpr) :
    substSym n rp (maFold l e0) = maFold l (substSym n rp e0) := by
  induction l generalizing e0 with
  | nil => rfl
  | cons p rest ih =>
    show substSym n rp (maFold rest (.mul e0 (powTerm p))) = _
    rw [ih]
    show maFold rest (.mul (substSym n rp e0) (substSym n rp (powTerm p))) = _
    rw [substSym_powTerm]
    rfl

/-- C6 (amended): for every reversible reaction, the Type-2 symbolic rate
expression equals the Type-1 symbolic rate expression — with no extra
factor of `kf` — after substituting `Keq = kf/kr`, at every valuation
where the forward rate constant is nonzero (and where the external species
symbol is not the reaction's `Keq` symbol). -/
theorem c6_type2_equals_type1_substituted (r : MassReaction)
    (hrev : r.reversible = true) (hx : ¬ r.external = symKeq r)
    (v c : String → ℚ) (hkf : v (symKf r) ≠ 0) :
    evalS v c (substSym (symKeq r) (keqRepl r) (rateExprType1 r)) =
      evalS v c (rateExprType2 r) := by
  have hkfne := symKf_ne_symKeq r
  have hinv : (v (symKf r) * (v (symKr r))⁻¹)⁻¹ =
      v (symKr r) * (v (symKf r))⁻¹ := by
    rw [mul_inv_rev, inv_inv]
  by_cases h1 : r.exchange && (reactants r).isEmpty <;>
    by_cases h2 : r.exchange && (products r).isEmpty <;>
      simp only [rateExprType1, rateExprType2, hrev, h1, h2, Bool.not_true,
        if_false, if_true, Bool.false_eq_true] <;>
      simp only [substSym, substSym_maFold, if_neg hkfne, if_neg hx, if_pos rfl,
        keqRepl] <;>
      simp only [evalS, evalS_maFold, zpow_neg_one, hinv] <;>
      field_simp <;>
      ring

/-- Counterexample for C6 as stated: for the reversible reaction
`v1 : A <=> B` with `kf = 2`, `kr = 1`, `A(t) = 1`, `B(t) = 0`, the Type-2
expression evaluates to 2 while the Type-1 expression multiplied by `kf`
after substituting `Keq = kf/kr` evaluates to 4. -/
theorem c6_counterexample :
    rxnAB.reversible = true ∧
    evalS vC6 cC6 (.mul (.sym (symKf rxnAB))
        (substSym (symKeq rxnAB) (keqRepl rxnAB) (rateExprType1 rxnAB))) ≠
      evalS vC6 cC6 (rateExprType2 rxnAB) := by
  refine ⟨rfl, ?_⟩
  have h1 : substSym (symKeq rxnAB) (keqRepl rxnAB) (rateExprType1 rxnAB) =
      .mul (.sym "kf_v1") (.add (.mul (.num 1) (.func "A"))
        (.mul (.num (-1)) (.mul (.pow (.mul (.sym "kf_v1")
          (.pow (.sym "kr_v1") (-1))) (-1)) (.func "B")))) := by decide
  have h2 : rateExprType2 rxnAB =
      .add (.mul (.sym "kf_v1") (.func "A"))
        (.mul (.num (-1)) (.mul (.sym "kr_v1") (.func "B"))) := by decide
  have hsym : symKf rxnAB = "kf_v1" := by decide
  rw [h1, h2, hsym]
  have hBA : ¬ "B" = "A" := by decide
  have hrf : ¬ "kr_v1" = "kf_v1" := by decide
  norm_num [evalS, vC6, cC6, zpow_neg_one, hBA, hrf]

/-- Witness for C6 at `v1 : A <=> B` with the sample valuation. -/
theorem c6_type2_equals_type1_substituted_witness :
    evalS vC6 cC6 (substSym (symKeq rxnAB) (keqRepl rxnAB)
      (rateExprType1 rxnAB)) = evalS vC6 cC6 (rateExprType2 rxnAB) :=
  c6_type2_equals_type1_substituted rxnAB rfl (by decide) vC6 cC6 (by decide)

/-! ## C9 -/

theorem akey_eq_isSome {β : Type} (k : String) (ps : List (String × β)) :
    akey k ps = (alookup k ps).isSome := by
  induction ps with
  | nil => simp [akey, alookup]
  | cons p rest ih =>
    by_cases hp : p.1 = k <;> simp [akey, alookup, hp, List.any_cons, ← ih]

theorem alookup_filterOut {β : Type} (ps : List (String × β)) (s k : String) :
    alookup k (ps.filter (fun p => ¬ p.1 = s)) =
      if k = s then none else alookup k ps := by
  induction ps with
  | nil => simp [alookup]
  | cons p rest ih =>
    rw [List.filter_cons]
    by_cases hp : p.1 = s
    · rw [if_neg (by simp [hp]), ih]
      by_cases hks : k = s
      · simp [hks]
      · have hpnk : ¬ p.1 = k := by rw [hp]; exact fun hh => hks hh.symm
        simp [hks, alookup, hpnk]
    · rw [if_pos (by simp [hp])]
      by_cases hpk : p.1 = k
      · have hks : ¬ k = s := fun hh => hp (hpk.trans hh)
        simp [alookup, hpk, hks]
      · simp only [alookup]
        rw [if_neg hpk, ih]
        by_cases hks : k = s
        · simp [hks]
        · simp [hks, hpk]

theorem alookup_adelete {β : Type} (ps : List (String × β)) (s : String)
    (hs : akey s ps = true) :
    ∃ qs, adelete ps s = some qs ∧
      ∀ k, alookup k qs = if k = s then none else alookup k ps := by
  refine ⟨ps.filter (fun p => ¬ p.1 = s), ?_, fun k => alookup_filterOut ps s k⟩
  simp [adelete, hs]

theorem adelete_fold {β : Type} :
    ∀ (syms : List String) (ps : List (String × β)), syms.Nodup →
      (∀ s ∈ syms, akey s ps = true) →
      ∃ qs, syms.foldlM (fun acc s => adelete acc s) ps = some qs ∧
        ∀ k, alookup k qs = if k ∈ syms then none else alookup k ps
  | [], ps, _, _ => ⟨ps, rfl, fun k => by simp⟩
  | s :: rest, ps, hnd, hall => by
    obtain ⟨ps1, hdel, hps1⟩ := alookup_adelete ps s (hall s (by simp))
    have hsrest : s ∉ rest := (List.nodup_cons.mp hnd).1
    have hrest : ∀ t ∈ rest, akey t ps1 = true := by
      intro t ht
      have hts : ¬ t = s := fun hh => hsrest (hh ▸ ht)
      rw [akey_eq_isSome, hps1 t, if_neg hts, ← akey_eq_isSome]
      exact hall t (by simp [ht])
    obtain ⟨qs, hfold, hqs⟩ :=
      adelete_fold rest ps1 (List.nodup_cons.mp hnd).2 hrest
    refine ⟨qs, ?_, ?_⟩
    · simp only [List.foldlM_cons, hdel, Option.bind_some]
      exact hfold
    · intro k
      rw [hqs k]
      by_cases hk : k ∈ rest
      · rw [if_pos hk, if_pos (by simp [hk])]
      · by_cases hks : k = s
        · rw [if_neg hk, hps1 k, if_pos hks, if_pos (by simp [hks])]
        · rw [if_neg hk, hps1 k, if_neg hks, if_neg (by simp [hks, hk])]

/-- C9 (amended): `remove_custom_rate` deletes the reaction's custom rate,
and — provided every symbol of the removed rate not shared with a
remaining custom rate is a stored custom parameter — completes, removing
from the custom-parameter map exactly those unshared symbols and
retaining every parameter shared with a remaining custom rate or foreign
to the removed rate.  (The code deletes unshared SYMBOLS, not unshared
custom parameters: when the removed rate mentions a non-parameter symbol,
such as the reaction's own rate constant, the call raises `KeyError`; see
the counterexample.) -/
theorem c9_remove_custom_rate (m : MassModel) (rid : String) (rate : SExpr)
    (hr : alookup rid m.custom_rates = some rate)
    (hall : ∀ s ∈ unsharedSyms m rid rate, akey s m.custom_parameters = true) :
    ∃ m2, removeCustomRate m rid = some m2 ∧
      m2.custom_rates = remainingRates m rid ∧
      ∀ k, alookup k m2.custom_parameters =
        if k ∈ unsharedSyms m rid rate then none
        else alookup k m.custom_parameters := by
  have hnd : (unsharedSyms m rid rate).Nodup := by
    unfold unsharedSyms
    by_cases h : (remainingRates m rid).isEmpty <;>
      simp [h, List.Nodup.filter, List.nodup_dedup]
  obtain ⟨qs, hfold, hqs⟩ :=
    adelete_fold (unsharedSyms m rid rate) m.custom_parameters hnd hall
  have hm2 : removeCustomRate m rid = some
      { m with custom_rates := remainingRates m rid,
               custom_parameters := qs } := by
    rw [removeCustomRate.eq_def, hr]
    simp only [hfold]
  exact ⟨_, hm2, rfl, hqs⟩

/-- Counterexample for C9 as stated: the custom rate `k1 * kf_v1` of `v1`
in `mC9` references the reaction's own forward rate constant (explicitly
sanctioned by the `add_custom_rate` docstring); with no other custom rate,
`remove_custom_rate` tries `del self._custom_parameters["kf_v1"]` and
raises `KeyError` — the call does not complete without error. -/
theorem c9_counterexample : removeCustomRate mC9 "v1" = none := by rfl

/-- The time-symbol crash of `remove_custom_rate`: removing `v2`'s rate
`k2*B(t)` from `mC9b` leaves the unshared symbol `t` (the remaining rate
`k1*k2` carries no function), and `del self._custom_parameters["t"]`
raises `KeyError`. -/
theorem removeCustomRate_time_symbol :
    removeCustomRate mC9b "v2" = none ∧
    unsharedSyms mC9b "v2" (SExpr.mul (.sym "k2") (.func "B")) = ["t"] := by
  refine ⟨by rfl, by decide⟩

/-- Witness for C9 at `mC9b`: removing `v1`'s rate `k1*k2` while `v2`'s
rate still uses `k2` deletes `k1` and retains `k2`. -/
theorem c9_remove_custom_rate_witness :
    ∃ m2, removeCustomRate mC9b "v1" = some m2 ∧
      m2.custom_rates = [("v2", SExpr.mul (.sym "k2") (.func "B"))] ∧
      alookup "k1" m2.custom_parameters = none ∧
      alookup "k2" m2.custom_parameters = some 3 := by
  obtain ⟨m2, h1, h2, h3⟩ := c9_remove_custom_rate mC9b "v1"
    (.mul (.sym "k1") (.sym "k2")) (by decide) (by decide)
  refine ⟨m2, h1, ?_, ?_, ?_⟩
  · rw [h2]; decide
  · rw [h3 "k1", if_pos (by decide)]
  · rw [h3 "k2", if_neg (by decide)]; decide

/-! ## C10 -/

theorem addBackref_ids (m : MassModel) (mid rid : String) :
    (addBackref m mid rid).metabolites.map (fun mm => mm.id) =
      m.metabolites.map (fun mm => mm.id) := by
  simp only [addBackref, List.map_map]
  apply List.map_congr_left
  intro reg _
  by_cases h : reg.id = mid <;> simp [h]

theorem addBackref_ic (m : MassModel) (mid rid : String) :
    (addBackref m mid rid).initial_conditions = m.initial_conditions := rfl

theorem addBackref_establish (m : MassModel) (mid rid : String)
    (h : ∃ reg ∈ m.metabolites, reg.id = mid) :
    ∃ reg ∈ (addBackref m mid rid).metabolites,
      reg.id = mid ∧ rid ∈ reg.reactionRefs := by
  obtain ⟨reg, hmem, hid⟩ := h
  refine ⟨if reg.id = mid then
      { reg with reactionRefs :=
          if reg.reactionRefs.contains rid then reg.reactionRefs
          else reg.reactionRefs ++ [rid] } else reg, ?_, ?_⟩
  · exact List.mem_map_of_mem _ hmem
  · rw [if_pos hid]
    refine ⟨hid, ?_⟩
    by_cases hc : rid ∈ reg.reactionRefs
    · simp [hc]
    · simp [hc]

theorem addBackref_preserve (m : MassModel) (mid rid mid' rid' : String)
    (h : ∃ reg ∈ m.metabolites, reg.id = mid' ∧ rid' ∈ reg.reactionRefs) :
    ∃ reg ∈ (addBackref m mid rid).metabolites,
      reg.id = mid' ∧ rid' ∈ reg.reactionRefs := by
  obtain ⟨reg, hmem, hid, href⟩ := h
  refine ⟨if reg.id = mid then
      { reg with reactionRefs :=
          if reg.reactionRefs.contains rid then reg.reactionRefs
          else reg.reactionRefs ++ [rid] } else reg,
    List.mem_map_of_mem _ hmem, ?_⟩
  by_cases hb : reg.id = mid
  · rw [if_pos hb]
    refine ⟨hid, ?_⟩
    by_cases hc : rid ∈ reg.reactionRefs
    · simpa [hc] using href
    · have hap : rid' ∈ reg.reactionRefs ++ [rid] :=
        List.mem_append_left _ href
      simpa [hc] using hap
  · rw [if_neg hb]
    exact ⟨hid, href⟩

theorem addMet_preserve_rec (m : MassModel) (mr : MetabRef) (reg : RegMetab)
    (h : reg ∈ m.metabolites) :
    reg ∈ (addMetaboliteFromRef m mr).metabolites := by
  unfold addMetaboliteFromRef
  split
  · exact h
  · exact List.mem_append_left _ h

theorem addMet_id_mem (m : MassModel) (mr : MetabRef) :
    ∃ reg ∈ (addMetaboliteFromRef m mr).metabolites, reg.id = mr.id := by
  unfold addMetaboliteFromRef
  split
  · next hreg =>
    simp only [List.any_eq_true] at hreg
    obtain ⟨reg, hmem, hid⟩ := hreg
    exact ⟨reg, hmem, of_decide_eq_true hid⟩
  · exact ⟨⟨mr.id, mr.elements, mr.ic, []⟩, List.mem_append_right _ (by simp),
      rfl⟩

theorem addMet_ids_sub (m : MassModel) (mr : MetabRef) (k : String)
    (h : ∃ reg ∈ (addMetaboliteFromRef m mr).metabolites, reg.id = k) :
    (∃ reg ∈ m.metabolites, reg.id = k) ∨ k = mr.id := by
  unfold addMetaboliteFromRef at h
  obtain ⟨reg, hmem, hid⟩ := h
  by_cases hreg : m.metabolites.any (fun mm => mm.id = mr.id)
  · rw [if_pos hreg] at hmem
    exact Or.inl ⟨reg, hmem, hid⟩
  · rw [if_neg hreg] at hmem
    rcases List.mem_append.mp hmem with h1 | h1
    · exact Or.inl ⟨reg, h1, hid⟩
    · simp at h1
      subst h1
      exact Or.inr hid.symm

theorem addMet_ic_preserve (m : MassModel) (mr : MetabRef) (k : String)
    (hk : ∃ reg ∈ m.metabolites, reg.id = k) :
    alookup k (addMetaboliteFromRef m mr).initial_conditions =
      alookup k m.initial_conditions := by
  unfold addMetaboliteFromRef
  by_cases hreg : m.metabolites.any (fun mm => mm.id = mr.id)
  · rw [if_pos hreg]
  · rw [if_neg hreg]
    have hne : ¬ k = mr.id := by
      intro hh
      apply hreg
      obtain ⟨reg, hmem, hid⟩ := hk
      simp only [List.any_eq_true]
      exact ⟨reg, hmem, decide_eq_true (by rw [hid, hh])⟩
    cases hic : mr.ic with
    | none => rfl
    | some v =>
      show alookup k (aupdate m.initial_conditions [(mr.id, v)]) = _
      show alookup k (aset m.initial_conditions mr.id v) = _
      exact alookup_aset_ne _ _ _ _ hne

theorem addMet_ic_new (m : MassModel) (mr : MetabRef)
    (hnew : ¬ ∃ reg ∈ m.metabolites, reg.id = mr.id) (v : ℚ)
    (hv : mr.ic = some v) :
    alookup mr.id (addMetaboliteFromRef m mr).initial_conditions = some v := by
  unfold addMetaboliteFromRef
  have hreg : ¬ m.metabolites.any (fun mm => mm.id = mr.id) = true := by
    intro hh
    apply hnew
    simp only [List.any_eq_true] at hh
    obtain ⟨reg, hmem, hid⟩ := hh
    exact ⟨reg, hmem, of_decide_eq_true hid⟩
  rw [if_neg hreg, hv]
  show alookup mr.id (aset m.initial_conditions mr.id v) = some v
  exact alookup_aset_eq _ _ _

theorem addRxnGenes_fields (r : MassReaction) :
    ∀ (gs : List String) (x : MassModel),
      (gs.foldl (fun acc g =>
        if acc.genes.contains g then acc
        else { acc with genes := acc.genes ++ [g] }) x).metabolites =
          x.metabolites ∧
      (gs.foldl (fun acc g =>
        if acc.genes.contains g then acc
        else { acc with genes := acc.genes ++ [g] }) x).initial_conditions =
          x.initial_conditions
  | [], x => ⟨rfl, rfl⟩
  | g :: rest, x => by
    obtain ⟨h1, h2⟩ := addRxnGenes_fields r rest
      (if x.genes.contains g then x else { x with genes := x.genes ++ [g] })
    have hm : (if x.genes.contains g then x
        else { x with genes := x.genes ++ [g] }).metabolites =
          x.metabolites := by
      by_cases hg : g ∈ x.genes <;> simp [hg]
    have hi : (if x.genes.contains g then x
        else { x with genes := x.genes ++ [g] }).initial_conditions =
          x.initial_conditions := by
      by_cases hg : g ∈ x.genes <;> simp [hg]
    constructor
    · simp only [List.foldl_cons]
      rw [h1, hm]
    · simp only [List.foldl_cons]
      rw [h2, hi]

theorem metLoop_spec (r : MassReaction) :
    ∀ (ps : List (MetabRef × ℤ)) (acc : MassModel),
      (∀ p1 ∈ ps, ∀ p2 ∈ ps, p1.1.id = p2.1.id → p1.1 = p2.1) →
      (∀ k, (∃ reg ∈ acc.metabolites, reg.id = k) →
        ∃ reg ∈ (ps.foldl (fun acc p =>
          if acc.metabolites.any (fun mm => mm.id = p.1.id) then
            addBackref acc p.1.id r.id
          else
            addBackref (addMetaboliteFromRef acc p.1) p.1.id r.id) acc
          ).metabolites, reg.id = k) ∧
      (∀ mid rid, (∃ reg ∈ acc.metabolites,
          reg.id = mid ∧ rid ∈ reg.reactionRefs) →
        ∃ reg ∈ (ps.foldl (fun acc p =>
          if acc.metabolites.any (fun mm => mm.id = p.1.id) then
            addBackref acc p.1.id r.id
          else
            addBackref (addMetaboliteFromRef acc p.1) p.1.id r.id) acc
          ).metabolites, reg.id = mid ∧ rid ∈ reg.reactionRefs) ∧
      (∀ k v, (∃ reg ∈ acc.metabolites, reg.id = k) →
        alookup k acc.initial_conditions = some v →
        alookup k (ps.foldl (fun acc p =>
          if acc.metabolites.any (fun mm => mm.id = p.1.id) then
            addBackref acc p.1.id r.id
          else
            addBackref (addMetaboliteFromRef acc p.1) p.1.id r.id) acc
          ).initial_conditions = some v) ∧
      (∀ p ∈ ps, ∃ reg ∈ (ps.foldl (fun acc p =>
          if acc.metabolites.any (fun mm => mm.id = p.1.id) then
            addBackref acc p.1.id r.id
          else
            addBackref (addMetaboliteFromRef acc p.1) p.1.id r.id) acc
          ).metabolites, reg.id = p.1.id ∧ r.id ∈ reg.reactionRefs) ∧
      (∀ p ∈ ps, (¬ ∃ reg ∈ acc.metabolites, reg.id = p.1.id) →
        (∃ reg ∈ (ps.foldl (fun acc p =>
          if acc.metabolites.any (fun mm => mm.id = p.1.id) then
            addBackref acc p.1.id r.id
          else
            addBackref (addMetaboliteFromRef acc p.1) p.1.id r.id) acc
          ).metabolites, reg.id = p.1.id) ∧
        ∀ v, p.1.ic = some v →
          alookup p.1.id (ps.foldl (fun acc p =>
            if acc.metabolites.any (fun mm => mm.id = p.1.id) then
              addBackref acc p.1.id r.id
            else
              addBackref (addMetaboliteFromRef acc p.1) p.1.id r.id) acc
            ).initial_conditions = some v) ∧
      (∀ k, (∃ reg ∈ (ps.foldl (fun acc p =>
          if acc.metabolites.any (fun mm => mm.id = p.1.id) then
            addBackref acc p.1.id r.id
          else
            addBackref (addMetaboliteFromRef acc p.1) p.1.id r.id) acc
          ).metabolites, reg.id = k) →
        (∃ reg ∈ acc.metabolites, reg.id = k) ∨ ∃ p ∈ ps, p.1.id = k)
  | [], acc, _ => by
    refine ⟨fun k h => h, fun mid rid h => h, fun k v _ h => h, ?_, ?_, ?_⟩
    · intro p hp; simp at hp
    · intro p hp; simp at hp
    · intro k h; exact Or.inl h
  | p0 :: rest, acc, hps => by
    -- facts about the head step
    have hidsBR : ∀ (x : MassModel) (mid rid k : String),
        (∃ reg ∈ x.metabolites, reg.id = k) →
        ∃ reg ∈ (addBackref x mid rid).metabolites, reg.id = k := by
      intro x mid rid k hk
      obtain ⟨reg, hmem, hid⟩ := hk
      have : k ∈ (addBackref x mid rid).metabolites.map (fun mm => mm.id) := by
        rw [addBackref_ids]
        exact hid ▸ List.mem_map_of_mem _ hmem
      obtain ⟨reg2, hmem2, hid2⟩ := List.mem_map.mp this
      exact ⟨reg2, hmem2, hid2⟩
    have hidsBRrev : ∀ (x : MassModel) (mid rid k : String),
        (∃ reg ∈ (addBackref x mid rid).metabolites, reg.id = k) →
        ∃ reg ∈ x.metabolites, reg.id = k := by
      intro x mid rid k hk
      obtain ⟨reg, hmem, hid⟩ := hk
      have : k ∈ x.metabolites.map (fun mm => mm.id) := by
        rw [← addBackref_ids x mid rid]
        exact hid ▸ List.mem_map_of_mem _ hmem
      obtain ⟨reg2, hmem2, hid2⟩ := List.mem_map.mp this
      exact ⟨reg2, hmem2, hid2⟩
    set step := fun (acc : MassModel) (p : MetabRef × ℤ) =>
      if acc.metabolites.any (fun mm => mm.id = p.1.id) then
        addBackref acc p.1.id r.id
      else
        addBackref (addMetaboliteFromRef acc p.1) p.1.id r.id with hstep
    have s1 : ∀ k, (∃ reg ∈ acc.metabolites, reg.id = k) →
        ∃ reg ∈ (step acc p0).metabolites, reg.id = k := by
      intro k hk
      rw [hstep]
      by_cases hb : acc.metabolites.any (fun mm => mm.id = p0.1.id)
      · simp only [hb, if_true]
        exact hidsBR _ _ _ _ hk
      · simp only [hb, Bool.false_eq_true, if_false]
        obtain ⟨reg, hmem, hid⟩ := hk
        exact hidsBR _ _ _ _ ⟨reg, addMet_preserve_rec acc p0.1 reg hmem, hid⟩
    have s2 : ∀ mid rid, (∃ reg ∈ acc.metabolites,
          reg.id = mid ∧ rid ∈ reg.reactionRefs) →
        ∃ reg ∈ (step acc p0).metabolites,
          reg.id = mid ∧ rid ∈ reg.reactionRefs := by
      intro mid rid hk
      rw [hstep]
      obtain ⟨reg, hmem, hid, href⟩ := hk
      by_cases hb : acc.metabolites.any (fun mm => mm.id = p0.1.id)
      · simp only [hb, if_true]
        exact addBackref_preserve _ _ _ _ _ ⟨reg, hmem, hid, href⟩
      · simp only [hb, Bool.false_eq_true, if_false]
        exact addBackref_preserve _ _ _ _ _
          ⟨reg, addMet_preserve_rec acc p0.1 reg hmem, hid, href⟩
    have s3 : ∀ k v, (∃ reg ∈ acc.metabolites, reg.id = k) →
        alookup k acc.initial_conditions = some v →
        alookup k (step acc p0).initial_conditions = some v := by
      intro k v hk hic
      rw [hstep]
      by_cases hb : acc.metabolites.any (fun mm => mm.id = p0.1.id)
      · simp only [hb, if_true]
        rw [addBackref_ic]
        exact hic
      · simp only [hb, Bool.false_eq_true, if_false]
        rw [addBackref_ic, addMet_ic_preserve acc p0.1 k hk]
        exact hic
    have s4 : ∃ reg ∈ (step acc p0).metabolites,
        reg.id = p0.1.id ∧ r.id ∈ reg.reactionRefs := by
      rw [hstep]
      by_cases hb : acc.metabolites.any (fun mm => mm.id = p0.1.id)
      · simp only [hb, if_true]
        apply addBackref_establish
        simp only [List.any_eq_true] at hb
        obtain ⟨reg, hmem, hid⟩ := hb
        exact ⟨reg, hmem, of_decide_eq_true hid⟩
      · simp only [hb, Bool.false_eq_true, if_false]
        exact addBackref_establish _ _ _ (addMet_id_mem acc p0.1)
    have s5 : (¬ ∃ reg ∈ acc.metabolites, reg.id = p0.1.id) →
        (∃ reg ∈ (step acc p0).metabolites, reg.id = p0.1.id) ∧
        ∀ v, p0.1.ic = some v →
          alookup p0.1.id (step acc p0).initial_conditions = some v := by
      intro hnew
      have hb : ¬ acc.metabolites.any (fun mm => mm.id = p0.1.id) = true := by
        intro hh
        apply hnew
        simp only [List.any_eq_true] at hh
        obtain ⟨reg, hmem, hid⟩ := hh
        exact ⟨reg, hmem, of_decide_eq_true hid⟩
      rw [hstep]
      simp only [hb, Bool.false_eq_true, if_false]
      constructor
      · exact hidsBR _ _ _ _ (addMet_id_mem acc p0.1)
      · intro v hv
        rw [addBackref_ic]
        exact addMet_ic_new acc p0.1 hnew v hv
    have s6 : ∀ k, (∃ reg ∈ (step acc p0).metabolites, reg.id = k) →
        (∃ reg ∈ acc.metabolites, reg.id = k) ∨ k = p0.1.id := by
      intro k hk
      rw [hstep] at hk
      by_cases hb : acc.metabolites.any (fun mm => mm.id = p0.1.id)
      · simp only [hb, if_true] at hk
        exact Or.inl (hidsBRrev _ _ _ _ hk)
      · simp only [hb, Bool.false_eq_true, if_false] at hk
        exact addMet_ids_sub acc p0.1 k (hidsBRrev _ _ _ _ hk)
    -- the tail
    have hpsrest : ∀ p1 ∈ rest, ∀ p2 ∈ rest, p1.1.id = p2.1.id → p1.1 = p2.1 :=
      fun p1 h1 p2 h2 => hps p1 (by simp [h1]) p2 (by simp [h2])
    obtain ⟨ihA, ihB, ihC, ihD, ihE, ihF⟩ :=
      metLoop_spec r rest (step acc p0) hpsrest
    have hfold : (p0 :: rest).foldl step acc = rest.foldl step (step acc p0) :=
      List.foldl_cons _ _
    rw [hstep] at hfold
    refine ⟨?_, ?_, ?_, ?_, ?_, ?_⟩
    · intro k hk
      rw [hfold]
      exact ihA k (s1 k hk)
    · intro mid rid hk
      rw [hfold]
      exact ihB mid rid (s2 mid rid hk)
    · intro k v hk hic
      rw [hfold]
      exact ihC k v (s1 k hk) (s3 k v hk hic)
    · intro p hp
      rw [hfold]
      rcases List.mem_cons.mp hp with h1 | h1
      · subst h1
        exact ihB _ _ s4
      · exact ihD p h1
    · intro p hp hnew
      rw [hfold]
      rcases List.mem_cons.mp hp with h1 | h1
      · subst h1
        obtain ⟨hhas, hic⟩ := s5 hnew
        refine ⟨ihA _ hhas, fun v hv => ihC _ v hhas (hic v hv)⟩
      · by_cases hq1 : ∃ reg ∈ (step acc p0).metabolites, reg.id = p.1.id
        · have : (∃ reg ∈ acc.metabolites, reg.id = p.1.id) ∨ p.1.id = p0.1.id :=
            s6 p.1.id hq1
          rcases this with h2 | h2
          · exact absurd h2 hnew
          · have heq : p.1 = p0.1 :=
              hps p hp p0 (by simp) h2
            have hnew0 : ¬ ∃ reg ∈ acc.metabolites, reg.id = p0.1.id := by
              rw [← h2] at *
              intro hh
              exact hnew (by rw [heq] at hh ⊢; exact hh)
            obtain ⟨hhas, hic⟩ := s5 hnew0
            refine ⟨?_, ?_⟩
            · rw [h2]
              exact ihA _ hhas
            · intro v hv
              rw [heq] at hv
              rw [h2]
              exact ihC _ v hhas (hic v hv)
        · obtain ⟨hhas, hic⟩ := ihE p h1 hq1
          exact ⟨hhas, hic⟩
    · intro k hk
      rw [hfold] at hk
      rcases ihF k hk with h1 | h1
      · rcases s6 k h1 with h2 | h2
        · exact Or.inl h2
        · exact Or.inr ⟨p0, by simp, h2.symm⟩
      · obtain ⟨q, hq, hqid⟩ := h1
        exact Or.inr ⟨q, by simp [hq], hqid⟩

theorem rxnLoop_spec :
    ∀ (rs : List MassReaction) (acc : MassModel),
      (∀ r1 ∈ rs, ∀ r2 ∈ rs, ∀ p1 ∈ r1.metabolites, ∀ p2 ∈ r2.metabolites,
        p1.1.id = p2.1.id → p1.1 = p2.1) →
      (∀ k, (∃ reg ∈ acc.metabolites, reg.id = k) →
        ∃ reg ∈ (rs.foldl (fun acc r =>
          addRxnGenes (addRxnMetabolites acc r) r) acc).metabolites,
          reg.id = k) ∧
      (∀ mid rid, (∃ reg ∈ acc.metabolites,
          reg.id = mid ∧ rid ∈ reg.reactionRefs) →
        ∃ reg ∈ (rs.foldl (fun acc r =>
          addRxnGenes (addRxnMetabolites acc r) r) acc).metabolites,
          reg.id = mid ∧ rid ∈ reg.reactionRefs) ∧
      (∀ k v, (∃ reg ∈ acc.metabolites, reg.id = k) →
        alookup k acc.initial_conditions = some v →
        alookup k (rs.foldl (fun acc r =>
          addRxnGenes (addRxnMetabolites acc r) r) acc).initial_conditions =
          some v) ∧
      (∀ r ∈ rs, ∀ p ∈ r.metabolites,
        ∃ reg ∈ (rs.foldl (fun acc r =>
          addRxnGenes (addRxnMetabolites acc r) r) acc).metabolites,
          reg.id = p.1.id ∧ r.id ∈ reg.reactionRefs) ∧
      (∀ r ∈ rs, ∀ p ∈ r.metabolites,
        (¬ ∃ reg ∈ acc.metabolites, reg.id = p.1.id) → ∀ v, p.1.ic = some v →
        alookup p.1.id (rs.foldl (fun acc r =>
          addRxnGenes (addRxnMetabolites acc r) r) acc).initial_conditions =
          some v) ∧
      (∀ k, (∃ reg ∈ (rs.foldl (fun acc r =>
          addRxnGenes (addRxnMetabolites acc r) r) acc).metabolites,
          reg.id = k) →
        (∃ reg ∈ acc.metabolites, reg.id = k) ∨
          ∃ r ∈ rs, ∃ p ∈ r.metabolites, p.1.id = k)
  | [], acc, _ => by
    refine ⟨fun k h => h, fun mid rid h => h, fun k v _ h => h, ?_, ?_, ?_⟩
    · intro r hr; simp at hr
    · intro r hr; simp at hr
    · intro k h; exact Or.inl h
  | r0 :: rest, acc, hcons => by
    obtain ⟨A0, B0, C0, D0, E0, F0⟩ := metLoop_spec r0 r0.metabolites acc
      (fun p1 h1 p2 h2 => hcons r0 (by simp) r0 (by simp) p1 h1 p2 h2)
    have hgm : (addRxnGenes (addRxnMetabolites acc r0) r0).metabolites =
        (addRxnMetabolites acc r0).metabolites :=
      (addRxnGenes_fields r0 r0.genes (addRxnMetabolites acc r0)).1
    have hgi : (addRxnGenes (addRxnMetabolites acc r0) r0).initial_conditions =
        (addRxnMetabolites acc r0).initial_conditions :=
      (addRxnGenes_fields r0 r0.genes (addRxnMetabolites acc r0)).2
    set acc1 := addRxnGenes (addRxnMetabolites acc r0) r0 with hacc1
    have s1 : ∀ k, (∃ reg ∈ acc.metabolites, reg.id = k) →
        ∃ reg ∈ acc1.metabolites, reg.id = k := by
      intro k hk
      rw [hacc1, hgm]
      exact A0 k hk
    have s2 : ∀ mid rid, (∃ reg ∈ acc.metabolites,
        reg.id = mid ∧ rid ∈ reg.reactionRefs) →
        ∃ reg ∈ acc1.metabolites, reg.id = mid ∧ rid ∈ reg.reactionRefs := by
      intro mid rid hk
      rw [hacc1, hgm]
      exact B0 mid rid hk
    have s3 : ∀ k v, (∃ reg ∈ acc.metabolites, reg.id = k) →
        alookup k acc.initial_conditions = some v →
        alookup k acc1.initial_conditions = some v := by
      intro k v hk hic
      rw [hacc1, hgi]
      exact C0 k v hk hic
    have s4 : ∀ p ∈ r0.metabolites, ∃ reg ∈ acc1.metabolites,
        reg.id = p.1.id ∧ r0.id ∈ reg.reactionRefs := by
      intro p hp
      rw [hacc1, hgm]
      exact D0 p hp
    have s5 : ∀ p ∈ r0.metabolites,
        (¬ ∃ reg ∈ acc.metabolites, reg.id = p.1.id) →
        (∃ reg ∈ acc1.metabolites, reg.id = p.1.id) ∧
        ∀ v, p.1.ic = some v →
          alookup p.1.id acc1.initial_conditions = some v := by
      intro p hp hnew
      obtain ⟨hhas, hic⟩ := E0 p hp hnew
      constructor
      · rw [hacc1, hgm]; exact hhas
      · intro v hv
        rw [hacc1, hgi]
        exact hic v hv
    have s6 : ∀ k, (∃ reg ∈ acc1.metabolites, reg.id = k) →
        (∃ reg ∈ acc.metabolites, reg.id = k) ∨
          ∃ p ∈ r0.metabolites, p.1.id = k := by
      intro k hk
      rw [hacc1, hgm] at hk
      exact F0 k hk
    have hconsrest : ∀ r1 ∈ rest, ∀ r2 ∈ rest, ∀ p1 ∈ r1.metabolites,
        ∀ p2 ∈ r2.metabolites, p1.1.id = p2.1.id → p1.1 = p2.1 :=
      fun r1 h1 r2 h2 => hcons r1 (by simp [h1]) r2 (by simp [h2])
    obtain ⟨ihA, ihB, ihC, ihD, ihE, ihF⟩ := rxnLoop_spec rest acc1 hconsrest
    have hfold : (r0 :: rest).foldl (fun acc r =>
        addRxnGenes (addRxnMetabolites acc r) r) acc =
        rest.foldl (fun acc r =>
          addRxnGenes (addRxnMetabolites acc r) r) acc1 := rfl
    refine ⟨?_, ?_, ?_, ?_, ?_, ?_⟩
    · intro k hk
      rw [hfold]
      exact ihA k (s1 k hk)
    · intro mid rid hk
      rw [hfold]
      exact ihB mid rid (s2 mid rid hk)
    · intro k v hk hic
      rw [hfold]
      exact ihC k v (s1 k hk) (s3 k v hk hic)
    · intro r hr p hp
      rw [hfold]
      rcases List.mem_cons.mp hr with h1 | h1
      · subst h1
        exact ihB _ _ (s4 p hp)
      · exact ihD r h1 p hp
    · intro r hr p hp hnew v hv
      rw [hfold]
      rcases List.mem_cons.mp hr with h1 | h1
      · subst h1
        obtain ⟨hhas, hic⟩ := s5 p hp hnew
        exact ihC _ v hhas (hic v hv)
      · by_cases hq1 : ∃ reg ∈ acc1.metabolites, reg.id = p.1.id
        · rcases s6 p.1.id hq1 with h2 | h2
          · exact absurd h2 hnew
          · obtain ⟨q, hq, hqid⟩ := h2
            have heq : q.1 = p.1 :=
              hcons r0 (by simp) r (by simp [h1]) q hq p hp hqid
            have hnew0 : ¬ ∃ reg ∈ acc.metabolites, reg.id = q.1.id := by
              rw [hqid]
              exact hnew
            obtain ⟨hhas, hic⟩ := s5 q hq hnew0
            have hic2 : alookup q.1.id acc1.initial_conditions = some v :=
              hic v (by rw [heq]; exact hv)
            have hhas2 : ∃ reg ∈ acc1.metabolites, reg.id = p.1.id := by
              rw [← hqid]
              exact hhas
            have hic3 : alookup p.1.id acc1.initial_conditions = some v := by
              rw [← hqid]
              exact hic2
            exact ihC p.1.id v hhas2 hic3
        · exact ihE r h1 p hp hq1 v hv
    · intro k hk
      rw [hfold] at hk
      rcases ihF k hk with h1 | h1
      · rcases s6 k h1 with h2 | h2
        · exact Or.inl h2
        · obtain ⟨q, hq, hqid⟩ := h2
          exact Or.inr ⟨r0, by simp, q, hq, hqid⟩
      · obtain ⟨r2, hr2, q, hq, hqid⟩ := h1
        exact Or.inr ⟨r2, by simp [hr2], q, hq, hqid⟩

/-- C10: after `add_reactions`, for every actually-added reaction (its
identifier not already in the reaction registry) and every metabolite of
its coefficient map, the metabolite is present in the metabolite registry
(the coefficient map points to the registry object, here by identifier
indirection), the registry metabolite's back-reference set contains the
reaction, and a metabolite that was not previously registered is added
together with its initial condition.  The `hcons` hypothesis states that
metabolite references with equal identifiers denote the same metabolite
object, as aliasing guarantees in the source. -/
theorem c10_add_reactions (m : MassModel) (rlist : List MassReaction)
    (hcons : ∀ r1 ∈ rlist, ∀ r2 ∈ rlist, ∀ p1 ∈ r1.metabolites,
      ∀ p2 ∈ r2.metabolites, p1.1.id = p2.1.id → p1.1 = p2.1) :
    ∀ r ∈ rlist, ¬ m.reactions.any (fun r2 => r2.id = r.id) = true →
      ∀ p ∈ r.metabolites,
        (∃ reg ∈ (addReactions m rlist).metabolites,
          reg.id = p.1.id ∧ r.id ∈ reg.reactionRefs) ∧
        ((¬ ∃ reg ∈ m.metabolites, reg.id = p.1.id) → ∀ v, p.1.ic = some v →
          alookup p.1.id (addReactions m rlist).initial_conditions =
            some v) := by
  intro r hr hnotex p hp
  have hrl : r ∈ rlist.filter
      (fun r => !(m.reactions.any (fun r2 => r2.id = r.id))) := by
    rw [List.mem_filter]
    exact ⟨hr, by simp [hnotex]⟩
  have hcons2 : ∀ r1 ∈ rlist.filter
        (fun r => !(m.reactions.any (fun r2 => r2.id = r.id))),
      ∀ r2 ∈ rlist.filter
        (fun r => !(m.reactions.any (fun r2 => r2.id = r.id))),
      ∀ p1 ∈ r1.metabolites, ∀ p2 ∈ r2.metabolites,
        p1.1.id = p2.1.id → p1.1 = p2.1 :=
    fun r1 h1 r2 h2 => hcons r1 (List.mem_filter.mp h1).1
      r2 (List.mem_filter.mp h2).1
  obtain ⟨_, _, _, D, E, _⟩ := rxnLoop_spec (rlist.filter
    (fun r => !(m.reactions.any (fun r2 => r2.id = r.id)))) m hcons2
  exact ⟨D r hrl p hp, fun hnew v hv => E r hrl p hp hnew v hv⟩

/-- Witness for C10: adding `v1 : A <=> B` to the empty model registers
both metabolites with their initial conditions and back-references. -/
theorem c10_add_reactions_witness :
    (∃ reg ∈ (addReactions mEmpty [rxnAB]).metabolites,
      reg.id = "A" ∧ "v1" ∈ reg.reactionRefs) ∧
    alookup "A" (addReactions mEmpty [rxnAB]).initial_conditions = some 1 ∧
    (∃ reg ∈ (addReactions mEmpty [rxnAB]).metabolites,
      reg.id = "B" ∧ "v1" ∈ reg.reactionRefs) := by
  obtain ⟨hA1, hA2⟩ := c10_add_reactions mEmpty [rxnAB] (by decide)
    rxnAB (List.mem_singleton_self rxnAB) (by decide) (metA, -1) (by simp [rxnAB])
  obtain ⟨hB1, _⟩ := c10_add_reactions mEmpty [rxnAB] (by decide)
    rxnAB (List.mem_singleton_self rxnAB) (by decide) (metB, 1) (by simp [rxnAB])
  exact ⟨hA1, hA2 (by decide) 1 rfl, hB1⟩

/-! ## C7 and C8 -/

theorem percFold_cons (rp : List String) (s : String) (l : List String)
    (pv : Option String) :
    percFold rp l
      (if rp.contains s && !(hasSub "Keq" s) then some s else pv) =
      percFold rp (s :: l) pv := by
  unfold percFold
  simp only [List.foldl_cons]

theorem percFold_some (rp : List String) :
    ∀ (l : List String) (y : String), ∃ z, percFold rp l (some y) = some z
  | [], y => ⟨y, rfl⟩
  | s :: l, y => by
    by_cases hs : (rp.contains s && !(hasSub "Keq" s)) = true
    · have h1 := percFold_cons rp s l (some y)
      rw [if_pos hs] at h1
      obtain ⟨z, hz⟩ := percFold_some rp l s
      exact ⟨z, h1 ▸ hz⟩
    · have h1 := percFold_cons rp s l (some y)
      rw [if_neg hs] at h1
      obtain ⟨z, hz⟩ := percFold_some rp l y
      exact ⟨z, h1 ▸ hz⟩

theorem percFold_init (rp : List String) :
    ∀ (l : List String) (pv : Option String),
      percFold rp l pv =
        match percFold rp l none with
        | some x => some x
        | none => pv
  | [], pv => by simp [percFold]
  | s :: l, pv => by
    by_cases hs : (rp.contains s && !(hasSub "Keq" s)) = true
    · obtain ⟨z, hz⟩ := percFold_some rp l s
      have h1 := percFold_cons rp s l pv
      rw [if_pos hs] at h1
      have h2 := percFold_cons rp s l none
      rw [if_pos hs] at h2
      rw [← h1, ← h2, hz]
    · have h1 := percFold_cons rp s l pv
      rw [if_neg hs] at h1
      have h2 := percFold_cons rp s l none
      rw [if_neg hs] at h2
      rw [← h1, ← h2]
      exact percFold_init rp l pv

theorem bvGen (rp : List String)
    (step : List (String × ℚ) × Option String → String →
      Option (List (String × ℚ) × Option String))
    (hstep : ∀ acc s acc2, step acc s = some acc2 →
      acc2.2 = if rp.contains s && !(hasSub "Keq" s) then some s else acc.2) :
    ∀ (l : List String) (acc res : List (String × ℚ) × Option String),
      l.foldlM step acc = some res → res.2 = percFold rp l acc.2
  | [], acc, res => by
    intro h
    have h2 : acc = res := Option.some.inj h
    rw [← h2]
    rfl
  | s :: l, acc, res => by
    intro h
    rw [List.foldlM_cons] at h
    cases hs : step acc s with
    | none => rw [hs] at h; exact Option.noConfusion h
    | some acc2 =>
      rw [hs] at h
      have hrec := bvGen rp step hstep l acc2 res h
      rw [hrec]
      have hp := percFold_cons rp s l acc.2
      rw [← hstep acc s acc2 hs] at hp
      exact hp

theorem bvAux (m : MassModel) (r : MassReaction)
    (rateParams fixedSyms customSyms : List String) :
    ∀ (l : List String) (acc res : List (String × ℚ) × Option String),
      l.foldlM (fun acc s =>
        if rateParams.contains s then
          if hasSub "Keq" s then
            match r.Keq with
            | none => none
            | some keq => some (aset acc.1 s keq, acc.2)
          else some (acc.1, some s)
        else if customSyms.contains s then
          match alookup s m.custom_parameters with
          | none => none
          | some v => some (aset acc.1 s v, acc.2)
        else if fixedSyms.contains s then
          match alookup s m.fixed_concentrations with
          | none => none
          | some v => some (aset acc.1 s v, acc.2)
        else
          match m.metabolites.find? (fun mm => mm.id = s) with
          | none => none
          | some mm =>
            match alookup mm.id m.initial_conditions with
            | none => none
            | some v => some (aset acc.1 s v, acc.2)) acc = some res →
      res.2 = percFold rateParams l acc.2 :=
  bvGen rateParams _ (by
    intro acc s acc2 hs
    by_cases h1 : rateParams.contains s = true
    · rw [if_pos h1] at hs
      by_cases h2 : hasSub "Keq" s = true
      · rw [if_pos h2] at hs
        have hpred : (rateParams.contains s && !(hasSub "Keq" s)) = false := by
          rw [h1, h2]
          rfl
        cases hk : r.Keq with
        | none => rw [hk] at hs; exact Option.noConfusion hs
        | some keq =>
          rw [hk] at hs
          have h3 : acc2 = (aset acc.1 s keq, acc.2) :=
            (Option.some.inj hs).symm
          rw [h3, if_neg (by rw [hpred]; simp)]
      · rw [if_neg h2] at hs
        have h2f : hasSub "Keq" s = false := by
          cases hx : hasSub "Keq" s
          · rfl
          · exact absurd hx h2
        have hpred : (rateParams.contains s && !(hasSub "Keq" s)) = true := by
          rw [h1, h2f]
          rfl
        have h3 : acc2 = (acc.1, some s) := (Option.some.inj hs).symm
        rw [h3, if_pos hpred]
    · rw [if_neg h1] at hs
      have h1f : rateParams.contains s = false := by
        cases hx : rateParams.contains s
        · rfl
        · exact absurd hx h1
      have hpred : (rateParams.contains s && !(hasSub "Keq" s)) = false := by
        rw [h1f]
        rfl
      rw [if_neg (by rw [hpred]; simp)]
      by_cases h3 : customSyms.contains s = true
      · rw [if_pos h3] at hs
        cases hc : alookup s m.custom_parameters with
        | none => rw [hc] at hs; exact Option.noConfusion hs
        | some v =>
          rw [hc] at hs
          have h4 : acc2 = (aset acc.1 s v, acc.2) :=
            (Option.some.inj hs).symm
          rw [h4]
      · rw [if_neg h3] at hs
        by_cases h4 : fixedSyms.contains s = true
        · rw [if_pos h4] at hs
          cases hc : alookup s m.fixed_concentrations with
          | none => rw [hc] at hs; exact Option.noConfusion hs
          | some v =>
            rw [hc] at hs
            have h5 : acc2 = (aset acc.1 s v, acc.2) :=
              (Option.some.inj hs).symm
            rw [h5]
        · rw [if_neg h4] at hs
          cases hf : m.metabolites.find? (fun mm => mm.id = s) with
          | none => rw [hf] at hs; exact Option.noConfusion hs
          | some mm =>
            rw [hf] at hs
            have hs2 : (match alookup mm.id m.initial_conditions with
              | none => none
              | some v => some (aset acc.1 s v, acc.2)) = some acc2 := hs
            cases hc : alookup mm.id m.initial_conditions with
            | none => rw [hc] at hs2; exact Option.noConfusion hs2
            | some v =>
              rw [hc] at hs2
              have h5 : acc2 = (aset acc.1 s v, acc.2) :=
                (Option.some.inj hs2).symm
              rw [h5])

theorem buildValues_perc (m : MassModel) (r : MassReaction)
    (rp fx cs : List String) (rate : SExpr) (pv : Option String)
    (vals : List (String × ℚ)) (po : Option String)
    (h : buildValues m r rp fx cs rate pv = some (vals, po)) :
    po = percFold rp (symsOf rate).dedup pv :=
  bvAux m r rp fx cs (symsOf rate).dedup ([], pv) (vals, po) h

theorem percLoopStep_char (m : MassModel) (fluxes : List (String × ℚ))
    (default : ℚ) (solver : SExpr → String → ℚ → List ℚ)
    (rp fx cs : List String) (acc out : List (String × ℚ) × Option String)
    (p : String × Option SExpr)
    (h : percLoopStep m fluxes default solver rp fx cs acc p = some out) :
    ∃ rate r values flux perc v,
      p.2 = some rate ∧
      m.reactions.find? (fun r2 => r2.id = p.1) = some r ∧
      buildValues m r rp fx cs rate acc.2 = some (values, some perc) ∧
      alookup p.1 fluxes = some flux ∧
      percFold rp (symsOf rate).dedup acc.2 = some perc ∧
      percStep solver default rate values perc flux = some v ∧
      out = (aset acc.1 perc v, some perc) := by
  unfold percLoopStep at h
  split at h
  next hrate => exact absurd h (by simp)
  next rate hrate =>
    split at h
    next hfind => exact absurd h (by simp)
    next r hfind =>
      split at h
      next hbv => exact absurd h (by simp)
      next values percOpt hbv =>
        split at h
        next hfl => exact absurd h (by simp)
        next flux hfl =>
          cases percOpt with
          | none => exact Option.noConfusion h
          | some perc =>
            have h2 : (match percStep solver default rate values perc flux with
              | none => none
              | some v => some (aset acc.1 perc v, some perc)) = some out := h
            cases hps : percStep solver default rate values perc flux with
            | none => rw [hps] at h2; exact Option.noConfusion h2
            | some v =>
              rw [hps] at h2
              refine ⟨rate, r, values, flux, perc, v, hrate, hfind, hbv, hfl,
                ?_, hps, (Option.some.inj h2).symm⟩
              exact (buildValues_perc m r rp fx cs rate acc.2 values
                (some perc) hbv).symm

theorem percLoop_preserve (m : MassModel) (fluxes : List (String × ℚ))
    (default : ℚ) (solver : SExpr → String → ℚ → List ℚ)
    (rp fx cs : List String) :
    ∀ (L : List (String × Option SExpr))
      (acc res : List (String × ℚ) × Option String) (pk : String),
      L.foldlM (percLoopStep m fluxes default solver rp fx cs) acc =
        some res →
      (∀ q ∈ L, ∀ rq, q.2 = some rq →
        ∃ pkq, percFold rp (symsOf rq).dedup none = some pkq ∧ ¬ pkq = pk) →
      alookup pk res.1 = alookup pk acc.1
  | [], acc, res, pk => by
    intro h _
    have h2 : acc = res := Option.some.inj h
    rw [h2]
  | q :: L, acc, res, pk => by
    intro h hq
    rw [List.foldlM_cons] at h
    cases hstep : percLoopStep m fluxes default solver rp fx cs acc q with
    | none => rw [hstep] at h; exact Option.noConfusion h
    | some acc2 =>
      rw [hstep] at h
      obtain ⟨rate, r, values, flux, perc, v, hrate, _, _, _, hpf, _, hout⟩ :=
        percLoopStep_char m fluxes default solver rp fx cs acc acc2 q hstep
      obtain ⟨pkq, hpkq, hne⟩ := hq q (by simp) rate hrate
      have hperc : perc = pkq := by
        have hini := percFold_init rp (symsOf rate).dedup acc.2
        rw [hpkq] at hini
        rw [hini] at hpf
        exact (Option.some.inj hpf).symm
      have hrec := percLoop_preserve m fluxes default solver rp fx cs L acc2
        res pk h (fun q2 hq2 => hq q2 (by simp [hq2]))
      rw [hrec, hout]
      show alookup pk (aset acc.1 perc v) = alookup pk acc.1
      rw [hperc]
      exact alookup_aset_ne acc.1 pkq pk v (fun hh => hne hh.symm)

theorem percLoop_lookup (m : MassModel) (fluxes : List (String × ℚ))
    (default : ℚ) (solver : SExpr → String → ℚ → List ℚ)
    (rp fx cs : List String) (L1 L2 : List (String × Option SExpr))
    (rid : String) (rate : SExpr)
    (res : List (String × ℚ) × Option String) (pk : String)
    (hres : (L1 ++ (rid, some rate) :: L2).foldlM
      (percLoopStep m fluxes default solver rp fx cs)
      (([], none) : List (String × ℚ) × Option String) = some res)
    (hpk : percFold rp (symsOf rate).dedup none = some pk)
    (hdiff : ∀ q ∈ L2, ∀ rq, q.2 = some rq →
      ∃ pkq, percFold rp (symsOf rq).dedup none = some pkq ∧ ¬ pkq = pk) :
    ∃ acc1 r values flux v,
      L1.foldlM (percLoopStep m fluxes default solver rp fx cs)
        (([], none) : List (String × ℚ) × Option String) = some acc1 ∧
      m.reactions.find? (fun r2 => r2.id = rid) = some r ∧
      buildValues m r rp fx cs rate acc1.2 = some (values, some pk) ∧
      alookup rid fluxes = some flux ∧
      percStep solver default rate values pk flux = some v ∧
      alookup pk res.1 = some v := by
  rw [List.foldlM_append] at hres
  cases hL1 : L1.foldlM (percLoopStep m fluxes default solver rp fx cs)
      (([], none) : List (String × ℚ) × Option String) with
  | none => rw [hL1] at hres; exact Option.noConfusion hres
  | some acc1 =>
    rw [hL1] at hres
    have hres2 : ((rid, some rate) :: L2).foldlM
        (percLoopStep m fluxes default solver rp fx cs) acc1 = some res :=
      hres
    rw [List.foldlM_cons] at hres2
    cases hstep : percLoopStep m fluxes default solver rp fx cs acc1
        (rid, some rate) with
    | none => rw [hstep] at hres2; exact Option.noConfusion hres2
    | some acc2 =>
      rw [hstep] at hres2
      obtain ⟨rate2, r, values, flux, perc, v, hrate2, hfind, hbv, hfl, hpf,
        hps, hout⟩ := percLoopStep_char m fluxes default solver rp fx cs
          acc1 acc2 (rid, some rate) hstep
      have hr2 : rate2 = rate := (Option.some.inj hrate2).symm
      subst hr2
      have hperc : perc = pk := by
        have hini := percFold_init rp (symsOf rate2).dedup acc1.2
        rw [hpk] at hini
        rw [hini] at hpf
        exact (Option.some.inj hpf).symm
      subst hperc
      have hpres := percLoop_preserve m fluxes default solver rp fx cs L2
        acc2 res perc hres2 hdiff
      refine ⟨acc1, r, values, flux, v, rfl, hfind, hbv, hfl, hps, ?_⟩
      rw [hpres, hout]
      exact alookup_aset_eq acc1.1 perc v

/-! ## C7 and C8: the PERC computation -/

/-- C7: a reaction whose (supplied or stored) steady-state flux is exactly
zero has its PERC assigned the `at_equilibrium_default` sentinel by
`calc_PERCS`, without the solver being consulted: whenever the call
completes, the rate-constant symbol identified for that reaction's rate
maps to `default` in the returned dictionary.  The decomposition
hypotheses locate the reaction inside the iterated rate dictionary; the
`hdiff` hypothesis says no later reaction writes the same PERC symbol
(python would silently overwrite the entry otherwise). -/
theorem c7_zero_flux_yields_default (m : MassModel)
    (ssConcs ssFluxes : Option (List (String × ℚ))) (default : ℚ)
    (solver : SExpr → String → ℚ → List ℚ)
    (ratesD L1 L2 : List (String × Option SExpr)) (rp fx cs : List String)
    (rid : String) (rate : SExpr) (pk : String) (res : List (String × ℚ))
    (hsort : sortSymbols m = some (ratesD, rp, fx, cs))
    (hdecomp : ratesD.map (fun p => (p.1, p.2.map stripTime)) =
      L1 ++ (rid, some rate) :: L2)
    (hpk : percFold rp (symsOf rate).dedup none = some pk)
    (hdiff : ∀ q ∈ L2, ∀ rq, q.2 = some rq →
      ∃ pkq, percFold rp (symsOf rq).dedup none = some pkq ∧ ¬ pkq = pk)
    (hflux : alookup rid (ssFluxes.getD (steadyStateFluxes m)) = some 0)
    (hres : calcPERCS m ssConcs ssFluxes default solver = some res) :
    alookup pk res = some default := by
  unfold calcPERCS at hres
  split at hres
  next hmiss => exact Option.noConfusion hres
  next hmiss =>
    rw [hsort] at hres
    have hres2 : (match (ratesD.map (fun p => (p.1, p.2.map stripTime))).foldlM
          (percLoopStep m (ssFluxes.getD (steadyStateFluxes m)) default
            solver rp fx cs)
          (([], none) : List (String × ℚ) × Option String) with
        | none => none
        | some r => some r.1) = some res := hres
    rw [hdecomp] at hres2
    cases hfold : (L1 ++ (rid, some rate) :: L2).foldlM
        (percLoopStep m (ssFluxes.getD (steadyStateFluxes m)) default
          solver rp fx cs)
        (([], none) : List (String × ℚ) × Option String) with
    | none => rw [hfold] at hres2; exact Option.noConfusion hres2
    | some resP =>
      rw [hfold] at hres2
      have hr : res = resP.1 := (Option.some.inj hres2).symm
      obtain ⟨acc1, r, values, flux, v, hL1, hfind, hbv, hfl, hps, hlook⟩ :=
        percLoop_lookup m (ssFluxes.getD (steadyStateFluxes m)) default
          solver rp fx cs L1 L2 rid rate resP pk hfold hpk hdiff
      rw [hfl] at hflux
      have hf0 : flux = 0 := Option.some.inj hflux
      subst hf0
      unfold percStep at hps
      rw [if_pos rfl] at hps
      rw [hr, hlook, ← hps]

/-- Witness for C7 at `mP0`: the single reaction `p1` stores a flux of 0,
so `calc_PERCS` maps its PERC `kf_p1` to the sentinel 100000 even though
the solver would report no real roots. -/
theorem c7_zero_flux_yields_default_witness :
    alookup "kf_p1" [("kf_p1", (100000 : ℚ))] = some 100000 :=
  c7_zero_flux_yields_default mP0 none none 100000 solverNoRoots
    [("p1", some (SExpr.mul (.sym "kf_p1") (.mul (.num 1) (.func "A"))))]
    [] [] ["kf_p1"] [] [] "p1"
    (SExpr.mul (.sym "kf_p1") (.mul (.num 1) (.sym "A")))
    "kf_p1" [("kf_p1", 100000)]
    (by rfl) (by rfl) (by rfl)
    (by intro q hq; exact absurd hq (List.not_mem_nil q))
    (by rfl) (by rfl)

/-- C8 (corrected): for a reaction with nonzero flux, `calc_PERCS` hands
`solveset`'s result directly to `set.pop()`: whenever the call completes,
the reaction's PERC entry is an arbitrary element (here the head) of the
real solution set.  A solution set with several roots is NOT reported as
an error — only the empty set aborts, and then as `pop`'s `KeyError`
(modelled `none`), not as an unsolvable-equation diagnostic. -/
theorem c8_nonzero_flux_pops_arbitrary_root (m : MassModel)
    (ssConcs ssFluxes : Option (List (String × ℚ))) (default : ℚ)
    (solver : SExpr → String → ℚ → List ℚ)
    (ratesD L1 L2 : List (String × Option SExpr)) (rp fx cs : List String)
    (rid : String) (rate : SExpr) (pk : String) (res : List (String × ℚ))
    (flux : ℚ)
    (hsort : sortSymbols m = some (ratesD, rp, fx, cs))
    (hdecomp : ratesD.map (fun p => (p.1, p.2.map stripTime)) =
      L1 ++ (rid, some rate) :: L2)
    (hpk : percFold rp (symsOf rate).dedup none = some pk)
    (hdiff : ∀ q ∈ L2, ∀ rq, q.2 = some rq →
      ∃ pkq, percFold rp (symsOf rq).dedup none = some pkq ∧ ¬ pkq = pk)
    (hflux : alookup rid (ssFluxes.getD (steadyStateFluxes m)) = some flux)
    (hnz : ¬ flux = 0)
    (hres : calcPERCS m ssConcs ssFluxes default solver = some res) :
    ∃ (acc1 : List (String × ℚ) × Option String) (r : MassReaction)
      (values : List (String × ℚ)) (v : ℚ),
      m.reactions.find? (fun r2 => r2.id = rid) = some r ∧
      buildValues m r rp fx cs rate acc1.2 = some (values, some pk) ∧
      (solver (substVals rate values) pk flux).head? = some v ∧
      alookup pk res = some v := by
  unfold calcPERCS at hres
  split at hres
  next hmiss => exact Option.noConfusion hres
  next hmiss =>
    rw [hsort] at hres
    have hres2 : (match (ratesD.map (fun p => (p.1, p.2.map stripTime))).foldlM
          (percLoopStep m (ssFluxes.getD (steadyStateFluxes m)) default
            solver rp fx cs)
          (([], none) : List (String × ℚ) × Option String) with
        | none => none
        | some r => some r.1) = some res := hres
    rw [hdecomp] at hres2
    cases hfold : (L1 ++ (rid, some rate) :: L2).foldlM
        (percLoopStep m (ssFluxes.getD (steadyStateFluxes m)) default
          solver rp fx cs)
        (([], none) : List (String × ℚ) × Option String) with
    | none => rw [hfold] at hres2; exact Option.noConfusion hres2
    | some resP =>
      rw [hfold] at hres2
      have hr : res = resP.1 := (Option.some.inj hres2).symm
      obtain ⟨acc1, r, values, flux2, v, hL1, hfind, hbv, hfl, hps, hlook⟩ :=
        percLoop_lookup m (ssFluxes.getD (steadyStateFluxes m)) default
          solver rp fx cs L1 L2 rid rate resP pk hfold hpk hdiff
      rw [hfl] at hflux
      have hf : flux2 = flux := Option.some.inj hflux
      subst hf
      unfold percStep at hps
      rw [if_neg hnz] at hps
      exact ⟨acc1, r, values, v, hfind, hbv, hps, by rw [hr]; exact hlook⟩

/-- Counterexample for C8 as stated: in `mP1` the reaction's flux is 1 ≠ 0
and the solver reports TWO real roots (5 and 7) for every equation, yet
`calc_PERCS` neither fails nor reports anything: it silently takes
`pop()`'s element and returns the PERC 5. -/
theorem c8_counterexample :
    (∀ e p f, solverTwoRoots e p f = [5, 7]) ∧
    calcPERCS mP1 none none 100000 solverTwoRoots = some [("kf_p1", 5)] :=
  ⟨fun _ _ _ => rfl, by rfl⟩

/-- Witness for the corrected C8 at `mP1`: with two real roots the PERC
`kf_p1` receives the head root, 5. -/
theorem c8_nonzero_flux_pops_arbitrary_root_witness :
    ∃ (acc1 : List (String × ℚ) × Option String) (r : MassReaction)
      (values : List (String × ℚ)) (v : ℚ),
      mP1.reactions.find? (fun r2 => r2.id = "p1") = some r ∧
      buildValues mP1 r ["kf_p1"] [] []
        (SExpr.mul (.sym "kf_p1") (.mul (.num 1) (.sym "A"))) acc1.2 =
        some (values, some "kf_p1") ∧
      (solverTwoRoots (substVals
        (SExpr.mul (.sym "kf_p1") (.mul (.num 1) (.sym "A"))) values)
        "kf_p1" 1).head? = some v ∧
      alookup "kf_p1" [("kf_p1", (5 : ℚ))] = some v :=
  c8_nonzero_flux_pops_arbitrary_root mP1 none none 100000 solverTwoRoots
    [("p1", some (SExpr.mul (.sym "kf_p1") (.mul (.num 1) (.func "A"))))]
    [] [] ["kf_p1"] [] [] "p1"
    (SExpr.mul (.sym "kf_p1") (.mul (.num 1) (.sym "A")))
    "kf_p1" [("kf_p1", 5)] 1
    (by rfl) (by rfl) (by rfl)
    (by intro q hq; exact absurd hq (List.not_mem_nil q))
    (by rfl) (by norm_num) (by rfl)

end MassPy
